import Mathlib

/-!
Verification of the Tari core subsystems against their sources:
the wallet output-manager in-memory store
(`base_layer/wallet/src/output_manager_service/storage/memory_db.rs`)
and the timestamp-aware difficulty adjustment
(`base_layer/core/src/proof_of_work/tsa_diff.rs`).

Modelling conventions:
* Rust `u64` values (spending keys, tx ids, difficulties, epoch seconds)
  are modelled as `Nat`; wrapping / saturating arithmetic is made explicit
  at the few places where the source can overflow or underflow.
* The `HashMap<TxId, PendingTransactionOutputs>` maps are modelled as
  association lists; `lookupTx` / `eraseTx` / `insertTx` mirror
  `HashMap::get` / `remove` / `insert` on well-formed (duplicate-free) maps.
* Each mutating operation takes the state and returns the post-state
  paired with the `Result` value.  The post-state is returned even on the
  error path, because the source mutates through the acquired write lock
  and an early `return Err(..)` keeps any mutation already performed.
* `fetch` takes `&self` under a read lock in the source, so it is modelled
  as a function of the state that returns no new state.
-/

/-- A wallet output; the store compares outputs only by `spending_key`.
The remaining fields of the Rust `UnblindedOutput` (value, features) are
collapsed into one opaque `value` payload. -/
structure UnblindedOutput where
  spending_key : Nat
  value : Nat
  deriving DecidableEq, Repr

/-- One in-flight transaction bundle, as in `storage/database.rs`. -/
structure PendingTransactionOutputs where
  tx_id : Nat
  outputs_to_be_spent : List UnblindedOutput
  outputs_to_be_received : List UnblindedOutput
  timestamp : Nat
  deriving DecidableEq, Repr

/-- Key-manager blob; the store only ever increments `primary_key_index`. -/
structure KeyManagerState where
  master_seed : Nat
  branch_seed : Nat
  primary_key_index : Nat
  deriving DecidableEq, Repr

/-- The store state, mirroring `InnerDatabase` in `memory_db.rs`. -/
structure InnerDatabase where
  unspent_outputs : List UnblindedOutput
  spent_outputs : List UnblindedOutput
  invalid_outputs : List UnblindedOutput
  pending_transactions : List (Nat × PendingTransactionOutputs)
  short_term_pending_transactions : List (Nat × PendingTransactionOutputs)
  key_manager_state : Option KeyManagerState
  deriving DecidableEq, Repr

/-- `InnerDatabase::new`: the empty store. -/
def InnerDatabase.new : InnerDatabase :=
  { unspent_outputs := []
    spent_outputs := []
    invalid_outputs := []
    pending_transactions := []
    short_term_pending_transactions := []
    key_manager_state := none }

inductive DbKey where
  | SpentOutput (k : Nat)
  | UnspentOutput (k : Nat)
  | PendingTransactionOutputs (tx_id : Nat)
  | UnspentOutputs
  | SpentOutputs
  | AllPendingTransactionOutputs
  | KeyManagerState
  | InvalidOutputs
  deriving DecidableEq, Repr

inductive DbValue where
  | SpentOutput (o : UnblindedOutput)
  | UnspentOutput (o : UnblindedOutput)
  | PendingTransactionOutputs (p : PendingTransactionOutputs)
  | UnspentOutputs (l : List UnblindedOutput)
  | SpentOutputs (l : List UnblindedOutput)
  | AllPendingTransactionOutputs (m : List (Nat × PendingTransactionOutputs))
  | KeyManagerState (s : KeyManagerState)
  | InvalidOutputs (l : List UnblindedOutput)
  deriving DecidableEq, Repr

inductive DbKeyValuePair where
  | SpentOutput (k : Nat) (o : UnblindedOutput)
  | UnspentOutput (k : Nat) (o : UnblindedOutput)
  | PendingTransactionOutputs (tx_id : Nat) (p : PendingTransactionOutputs)
  | KeyManagerState (s : KeyManagerState)
  deriving DecidableEq, Repr

inductive WriteOperation where
  | Insert (kvp : DbKeyValuePair)
  | Remove (k : DbKey)
  deriving DecidableEq, Repr

/-- `OutputManagerStorageError` (the variants exercised by `memory_db.rs`);
`KeyManagerNotInit` renders the source's key-manager-uninitialised variant. -/
inductive OutputManagerStorageError where
  | DuplicateOutput
  | ValueNotFound (k : DbKey)
  | ValuesNotFound
  | OperationNotSupported
  | KeyManagerNotInit
  | DurationOutOfRange
  deriving DecidableEq, Repr

/-- `HashMap::get` on an association list (first entry with the key). -/
def lookupTx (t : Nat) : List (Nat × PendingTransactionOutputs) → Option PendingTransactionOutputs
  | [] => none
  | p :: rest => if p.1 = t then some p.2 else lookupTx t rest

/-- `HashMap::remove` on an association list (drops the first entry with the key). -/
def eraseTx (t : Nat) : List (Nat × PendingTransactionOutputs) → List (Nat × PendingTransactionOutputs)
  | [] => []
  | p :: rest => if p.1 = t then rest else p :: eraseTx t rest

/-- `HashMap::insert` on an association list (replaces any entry with the key). -/
def insertTx (t : Nat) (b : PendingTransactionOutputs)
    (m : List (Nat × PendingTransactionOutputs)) : List (Nat × PendingTransactionOutputs) :=
  (t, b) :: eraseTx t m

/-- `Vec::iter().position(|v| v.spending_key == k)` followed by `Vec::remove(pos)`:
returns the first output with the given spending key and the vector without it. -/
def removeFirstByKey (k : Nat) : List UnblindedOutput → Option (UnblindedOutput × List UnblindedOutput)
  | [] => none
  | o :: rest =>
    if o.spending_key = k then some (o, rest)
    else
      match removeFirstByKey k rest with
      | some (o', rest') => some (o', o :: rest')
      | none => none

/-- `fetch` (memory_db.rs lines 83-120): a pure read under the read lock;
every arm produces `Ok`. -/
def InnerDatabase.fetch (db : InnerDatabase) (key : DbKey) :
    Except OutputManagerStorageError (Option DbValue) :=
  let result : Option DbValue :=
    match key with
    | .SpentOutput k =>
      (db.spent_outputs.find? (fun v => v.spending_key == k)).map (fun v => .SpentOutput v)
    | .UnspentOutput k =>
      (db.unspent_outputs.find? (fun v => v.spending_key == k)).map (fun v => .UnspentOutput v)
    | .PendingTransactionOutputs tx_id =>
      (match lookupTx tx_id db.pending_transactions with
       | some v => some v
       | none => lookupTx tx_id db.short_term_pending_transactions).map
        (fun v => .PendingTransactionOutputs v)
    | .UnspentOutputs => some (.UnspentOutputs db.unspent_outputs)
    | .SpentOutputs => some (.SpentOutputs db.spent_outputs)
    | .AllPendingTransactionOutputs =>
      some (.AllPendingTransactionOutputs
        (db.short_term_pending_transactions.foldl (fun acc p => insertTx p.1 p.2 acc)
          db.pending_transactions))
    | .KeyManagerState => db.key_manager_state.map (fun km => .KeyManagerState km)
    | .InvalidOutputs => some (.InvalidOutputs db.invalid_outputs)
  Except.ok result

/-- `write` (memory_db.rs lines 122-177). -/
def InnerDatabase.write (db : InnerDatabase) (op : WriteOperation) :
    InnerDatabase × Except OutputManagerStorageError (Option DbValue) :=
  match op with
  | .Insert kvp =>
    match kvp with
    | .SpentOutput k o =>
      if db.spent_outputs.any (fun v => v.spending_key == k) ||
          db.unspent_outputs.any (fun v => v.spending_key == k) then
        (db, .error .DuplicateOutput)
      else
        ({ db with spent_outputs := db.spent_outputs ++ [o] }, .ok none)
    | .UnspentOutput k o =>
      if db.unspent_outputs.any (fun v => v.spending_key == k) ||
          db.spent_outputs.any (fun v => v.spending_key == k) then
        (db, .error .DuplicateOutput)
      else
        ({ db with unspent_outputs := db.unspent_outputs ++ [o] }, .ok none)
    | .PendingTransactionOutputs t p =>
      ({ db with pending_transactions := insertTx t p db.pending_transactions }, .ok none)
    | .KeyManagerState km =>
      ({ db with key_manager_state := some km }, .ok none)
  | .Remove k =>
    match k with
    | .SpentOutput kk =>
      match removeFirstByKey kk db.spent_outputs with
      | none => (db, .error (.ValueNotFound (.SpentOutput kk)))
      | some (o, rest) => ({ db with spent_outputs := rest }, .ok (some (.SpentOutput o)))
    | .UnspentOutput kk =>
      match removeFirstByKey kk db.unspent_outputs with
      | none => (db, .error (.ValueNotFound (.UnspentOutput kk)))
      | some (o, rest) => ({ db with unspent_outputs := rest }, .ok (some (.UnspentOutput o)))
    | .PendingTransactionOutputs tx_id =>
      match lookupTx tx_id db.pending_transactions with
      | some p =>
        ({ db with pending_transactions := eraseTx tx_id db.pending_transactions },
         .ok (some (.PendingTransactionOutputs p)))
      | none => (db, .error (.ValueNotFound (.PendingTransactionOutputs tx_id)))
    | .UnspentOutputs => (db, .error .OperationNotSupported)
    | .SpentOutputs => (db, .error .OperationNotSupported)
    | .AllPendingTransactionOutputs => (db, .error .OperationNotSupported)
    | .KeyManagerState => (db, .error .OperationNotSupported)
    | .InvalidOutputs => (db, .error .OperationNotSupported)

/-- `confirm_transaction` (memory_db.rs lines 179-201): take the bundle out of
`pending_transactions`, or failing that out of `short_term_pending_transactions`;
drain its to-be-spent outputs into `spent_outputs` and its to-be-received
outputs into `unspent_outputs`. -/
def InnerDatabase.confirm_transaction (db : InnerDatabase) (tx_id : Nat) :
    InnerDatabase × Except OutputManagerStorageError Unit :=
  match lookupTx tx_id db.pending_transactions with
  | some p =>
    ({ db with
        pending_transactions := eraseTx tx_id db.pending_transactions
        spent_outputs := db.spent_outputs ++ p.outputs_to_be_spent
        unspent_outputs := db.unspent_outputs ++ p.outputs_to_be_received }, .ok ())
  | none =>
    match lookupTx tx_id db.short_term_pending_transactions with
    | some p =>
      ({ db with
          short_term_pending_transactions := eraseTx tx_id db.short_term_pending_transactions
          spent_outputs := db.spent_outputs ++ p.outputs_to_be_spent
          unspent_outputs := db.unspent_outputs ++ p.outputs_to_be_received }, .ok ())
    | none => (db, .error (.ValueNotFound (.PendingTransactionOutputs tx_id)))

/-- The `for i in outputs_to_send` loop of `short_term_encumber_outputs`
(memory_db.rs lines 212-218): outputs found in `unspent_outputs` are removed
one at a time into the collected list; on the first miss the loop stops with
an error, KEEPING the removals already performed (the source returns
`Err(ValuesNotFound)` while the removed outputs sit in a local that is dropped). -/
def encumberLoop : List UnblindedOutput → List UnblindedOutput → List UnblindedOutput →
    List UnblindedOutput × Option (List UnblindedOutput)
  | [], unspent, collected => (unspent, some collected)
  | i :: rest, unspent, collected =>
    match removeFirstByKey i.spending_key unspent with
    | some (o, unspent') => encumberLoop rest unspent' (collected ++ [o])
    | none => (unspent, none)

/-- `short_term_encumber_outputs` (memory_db.rs lines 203-234).  `now` stands
for `Utc::now().naive_utc()`. -/
def InnerDatabase.short_term_encumber_outputs (db : InnerDatabase) (tx_id : Nat)
    (outputs_to_send : List UnblindedOutput) (change_output : Option UnblindedOutput)
    (now : Nat) : InnerDatabase × Except OutputManagerStorageError Unit :=
  match encumberLoop outputs_to_send db.unspent_outputs [] with
  | (unspent', none) => ({ db with unspent_outputs := unspent' }, .error .ValuesNotFound)
  | (unspent', some outputs_to_be_spent) =>
    let pending_transaction : PendingTransactionOutputs :=
      { tx_id := tx_id
        outputs_to_be_spent := outputs_to_be_spent
        outputs_to_be_received := match change_output with | some co => [co] | none => []
        timestamp := now }
    ({ db with
        unspent_outputs := unspent'
        short_term_pending_transactions :=
          insertTx tx_id pending_transaction db.short_term_pending_transactions }, .ok ())

/-- `confirm_encumbered_outputs` (memory_db.rs lines 236-247).  Note the bundle
is re-inserted under its own `tx_id` field, exactly as in the source. -/
def InnerDatabase.confirm_encumbered_outputs (db : InnerDatabase) (tx_id : Nat) :
    InnerDatabase × Except OutputManagerStorageError Unit :=
  match lookupTx tx_id db.short_term_pending_transactions with
  | none => (db, .error (.ValueNotFound (.PendingTransactionOutputs tx_id)))
  | some pending_tx =>
    ({ db with
        short_term_pending_transactions := eraseTx tx_id db.short_term_pending_transactions
        pending_transactions := insertTx pending_tx.tx_id pending_tx db.pending_transactions },
     .ok ())

/-- `cancel_pending_transaction` (memory_db.rs lines 262-278): take the bundle
out of `pending_transactions`, or failing that out of
`short_term_pending_transactions`, and push its to-be-spent outputs back into
`unspent_outputs`; the to-be-received outputs are dropped. -/
def InnerDatabase.cancel_pending_transaction (db : InnerDatabase) (tx_id : Nat) :
    InnerDatabase × Except OutputManagerStorageError Unit :=
  match lookupTx tx_id db.pending_transactions with
  | some p =>
    ({ db with
        pending_transactions := eraseTx tx_id db.pending_transactions
        unspent_outputs := db.unspent_outputs ++ p.outputs_to_be_spent }, .ok ())
  | none =>
    match lookupTx tx_id db.short_term_pending_transactions with
    | some p =>
      ({ db with
          short_term_pending_transactions := eraseTx tx_id db.short_term_pending_transactions
          unspent_outputs := db.unspent_outputs ++ p.outputs_to_be_spent }, .ok ())
    | none => (db, .error (.ValueNotFound (.PendingTransactionOutputs tx_id)))

/-- The `for t in transactions { self.cancel_pending_transaction(t)? }` pattern
shared by `clear_short_term_encumberances` and `timeout_pending_transactions`:
cancels each tx id in turn, stopping at (and keeping the state of) the first error. -/
def cancelList : List Nat → InnerDatabase → InnerDatabase × Except OutputManagerStorageError Unit
  | [], db => (db, .ok ())
  | t :: ts, db =>
    match db.cancel_pending_transaction t with
    | (db', .ok _) => cancelList ts db'
    | (db', .error e) => (db', .error e)

/-- `clear_short_term_encumberances` (memory_db.rs lines 249-260): snapshot the
short-term keys, then cancel each. -/
def InnerDatabase.clear_short_term_encumberances (db : InnerDatabase) :
    InnerDatabase × Except OutputManagerStorageError Unit :=
  cancelList (db.short_term_pending_transactions.map (fun p => p.1)) db

/-- `timeout_pending_transactions` (memory_db.rs lines 280-301): collect from
both maps the bundles with `timestamp + period < now`, then cancel each.
`period` is modelled after a successful `ChronoDuration::from_std` conversion;
the conversion-failure path returns before any mutation. -/
def InnerDatabase.timeout_pending_transactions (db : InnerDatabase) (period : Nat) (now : Nat) :
    InnerDatabase × Except OutputManagerStorageError Unit :=
  let expired_pending :=
    (db.pending_transactions.filter (fun p => decide (p.2.timestamp + period < now))).map
      (fun p => p.1)
  let expired_short :=
    (db.short_term_pending_transactions.filter (fun p => decide (p.2.timestamp + period < now))).map
      (fun p => p.1)
  cancelList (expired_pending ++ expired_short) db

/-- `invalidate_unspent_output` (memory_db.rs lines 303-317). -/
def InnerDatabase.invalidate_unspent_output (db : InnerDatabase) (output : UnblindedOutput) :
    InnerDatabase × Except OutputManagerStorageError Unit :=
  match removeFirstByKey output.spending_key db.unspent_outputs with
  | some (o, rest) =>
    ({ db with unspent_outputs := rest, invalid_outputs := db.invalid_outputs ++ [o] }, .ok ())
  | none => (db, .error .ValuesNotFound)

/-- `increment_key_index` (memory_db.rs lines 319-331). -/
def InnerDatabase.increment_key_index (db : InnerDatabase) :
    InnerDatabase × Except OutputManagerStorageError Unit :=
  match db.key_manager_state with
  | none => (db, .error .KeyManagerNotInit)
  | some state =>
    ({ db with key_manager_state := some { state with primary_key_index := state.primary_key_index + 1 } },
     .ok ())

/-! ## Derived predicates -/

/-- Some output in `l` has spending key `k`. -/
def hasKey (k : Nat) (l : List UnblindedOutput) : Prop :=
  ∃ v ∈ l, v.spending_key = k

instance (k : Nat) (l : List UnblindedOutput) : Decidable (hasKey k l) := by
  unfold hasKey
  infer_instance

/-! ## C1: `short_term_encumber_outputs` is not transactional on `ValuesNotFound` -/

/-- C1: against the claim (and spec), `short_term_encumber_outputs` is NOT
transactional on failure.  With `unspent = [key 1]` and a request for keys
1 and 2, the call returns `ValuesNotFound` as claimed, but output 1 has been
removed from `unspent_outputs` and is lost: the post-state is the empty store,
not the pre-state. -/
theorem c1_encumber_error_loses_outputs :
    InnerDatabase.short_term_encumber_outputs
        { InnerDatabase.new with unspent_outputs := [⟨1, 10⟩] } 7
        [⟨1, 10⟩, ⟨2, 20⟩] none 0 =
      (InnerDatabase.new, .error .ValuesNotFound) := by
  rfl

/-! ## C7: duplicate check on `write(Insert(..))` -/

/-- C7: `write(Insert(UnspentOutput(k, o)))` fails with `DuplicateOutput` iff
some output with spending key `k` is already in `unspent_outputs` or in
`spent_outputs` (`invalid_outputs` and the pending bundles are not consulted),
in which case the state is unchanged; otherwise it appends `o` to
`unspent_outputs`.  Symmetrically for `SpentOutput`. -/
theorem c7_insert_duplicate_check (db : InnerDatabase) (k : Nat) (o : UnblindedOutput) :
    ((db.write (.Insert (.UnspentOutput k o))).2 = .error .DuplicateOutput ↔
      hasKey k db.unspent_outputs ∨ hasKey k db.spent_outputs) ∧
    ((db.write (.Insert (.SpentOutput k o))).2 = .error .DuplicateOutput ↔
      hasKey k db.spent_outputs ∨ hasKey k db.unspent_outputs) ∧
    (¬ (hasKey k db.unspent_outputs ∨ hasKey k db.spent_outputs) →
      db.write (.Insert (.UnspentOutput k o)) =
        ({ db with unspent_outputs := db.unspent_outputs ++ [o] }, .ok none)) ∧
    (¬ (hasKey k db.spent_outputs ∨ hasKey k db.unspent_outputs) →
      db.write (.Insert (.SpentOutput k o)) =
        ({ db with spent_outputs := db.spent_outputs ++ [o] }, .ok none)) ∧
    ((hasKey k db.unspent_outputs ∨ hasKey k db.spent_outputs) →
      db.write (.Insert (.UnspentOutput k o)) = (db, .error .DuplicateOutput)) ∧
    ((hasKey k db.spent_outputs ∨ hasKey k db.unspent_outputs) →
      db.write (.Insert (.SpentOutput k o)) = (db, .error .DuplicateOutput)) := by
  have hu : db.unspent_outputs.any (fun v => v.spending_key == k) = true ↔
      hasKey k db.unspent_outputs := by
    simp [List.any_eq_true, hasKey]
  have hs : db.spent_outputs.any (fun v => v.spending_key == k) = true ↔
      hasKey k db.spent_outputs := by
    simp [List.any_eq_true, hasKey]
  refine ⟨?_, ?_, ?_, ?_, ?_, ?_⟩ <;>
    simp only [InnerDatabase.write] <;>
    rcases h1 : db.unspent_outputs.any (fun v => v.spending_key == k) <;>
    rcases h2 : db.spent_outputs.any (fun v => v.spending_key == k) <;>
    simp_all

/-- C7 witness: inserting Unspent with key 5 and then Spent with the same
key 5 yields `DuplicateOutput`. -/
theorem c7_insert_duplicate_check_witness :
    ((InnerDatabase.new.write (.Insert (.UnspentOutput 5 ⟨5, 1⟩))).1.write
        (.Insert (.SpentOutput 5 ⟨5, 2⟩))).2 = .error .DuplicateOutput :=
  (c7_insert_duplicate_check (InnerDatabase.new.write
      (.Insert (.UnspentOutput 5 ⟨5, 1⟩))).1 5 ⟨5, 2⟩).2.1.mpr (Or.inr (by decide))

/-! ## C9: `fetch` is total and pure -/

/-- C9: `fetch` returns `Ok` for every key and every state (its result type in
the model carries no mutated state, mirroring the `&self` receiver under the
read lock), and returns `Ok(None)` whenever the requested single entry is
absent. -/
theorem c9_fetch_total (db : InnerDatabase) (key : DbKey) :
    (db.fetch key).isOk = true ∧
    (∀ e, db.fetch key ≠ .error e) ∧
    (∀ k, ¬ hasKey k db.spent_outputs → db.fetch (.SpentOutput k) = .ok none) ∧
    (∀ k, ¬ hasKey k db.unspent_outputs → db.fetch (.UnspentOutput k) = .ok none) ∧
    (∀ t, lookupTx t db.pending_transactions = none →
      lookupTx t db.short_term_pending_transactions = none →
      db.fetch (.PendingTransactionOutputs t) = .ok none) ∧
    (db.key_manager_state = none → db.fetch .KeyManagerState = .ok none) := by
  refine ⟨rfl, fun e h => by simp [InnerDatabase.fetch] at h, ?_, ?_, ?_, ?_⟩
  · intro k hk
    have : db.spent_outputs.find? (fun v => v.spending_key == k) = none := by
      simp [List.find?_eq_none, hasKey] at hk ⊢
      exact hk
    simp [InnerDatabase.fetch, this]
  · intro k hk
    have : db.unspent_outputs.find? (fun v => v.spending_key == k) = none := by
      simp [List.find?_eq_none, hasKey] at hk ⊢
      exact hk
    simp [InnerDatabase.fetch, this]
  · intro t h1 h2
    simp [InnerDatabase.fetch, h1, h2]
  · intro h
    simp [InnerDatabase.fetch, h]

/-- C9 witness: on the empty store, fetching an absent spent output returns
`Ok(None)`. -/
theorem c9_fetch_total_witness :
    InnerDatabase.new.fetch (.SpentOutput 3) = .ok none :=
  (c9_fetch_total InnerDatabase.new (.SpentOutput 3)).2.2.1 3 (by decide)

/-! ## C10: `confirm_encumbered_outputs` -/

/-- C10: `confirm_encumbered_outputs(tx_id)` removes the bundle from
`short_term_pending_transactions` and inserts it, unmodified, into
`pending_transactions` (under the bundle's own `tx_id` field, which equals the
map key for every bundle the store itself created); `unspent_outputs`,
`spent_outputs`, `invalid_outputs` and `key_manager_state` are untouched.
When `tx_id` is not a short-term key it fails with `ValueNotFound` and the
whole state is unchanged, even if `tx_id` is a key of `pending_transactions`. -/
theorem c10_confirm_encumbered_frame (db : InnerDatabase) (t : Nat) :
    (∀ b, lookupTx t db.short_term_pending_transactions = some b →
      db.confirm_encumbered_outputs t =
        ({ db with
            short_term_pending_transactions := eraseTx t db.short_term_pending_transactions
            pending_transactions := insertTx b.tx_id b db.pending_transactions }, .ok ())) ∧
    ((db.confirm_encumbered_outputs t).1.unspent_outputs = db.unspent_outputs ∧
      (db.confirm_encumbered_outputs t).1.spent_outputs = db.spent_outputs ∧
      (db.confirm_encumbered_outputs t).1.invalid_outputs = db.invalid_outputs ∧
      (db.confirm_encumbered_outputs t).1.key_manager_state = db.key_manager_state) ∧
    (lookupTx t db.short_term_pending_transactions = none →
      db.confirm_encumbered_outputs t =
        (db, .error (.ValueNotFound (.PendingTransactionOutputs t)))) := by
  refine ⟨?_, ?_, ?_⟩
  · intro b hb
    simp [InnerDatabase.confirm_encumbered_outputs, hb]
  · rcases h : lookupTx t db.short_term_pending_transactions with _ | b <;>
      simp [InnerDatabase.confirm_encumbered_outputs, h]
  · intro h
    simp [InnerDatabase.confirm_encumbered_outputs, h]

/-- C10 witness: with a single short-term bundle under tx id 3 the call moves
it to `pending_transactions`; on the empty store the call fails with
`ValueNotFound`. -/
theorem c10_confirm_encumbered_frame_witness :
    ({ InnerDatabase.new with
        short_term_pending_transactions := [(3, ⟨3, [], [], 0⟩)] } :
          InnerDatabase).confirm_encumbered_outputs 3 =
      ({ InnerDatabase.new with pending_transactions := [(3, ⟨3, [], [], 0⟩)] }, .ok ()) ∧
    InnerDatabase.new.confirm_encumbered_outputs 3 =
      (InnerDatabase.new, .error (.ValueNotFound (.PendingTransactionOutputs 3))) := by
  constructor
  · exact (c10_confirm_encumbered_frame
      { InnerDatabase.new with
          short_term_pending_transactions := [(3, ⟨3, [], [], 0⟩)] } 3).1 ⟨3, [], [], 0⟩ (by decide)
  · exact (c10_confirm_encumbered_frame InnerDatabase.new 3).2.2 (by decide)

/-! ## Association-list map lemmas -/

/-- The key list of a pending map. -/
def txKeys (m : List (Nat × PendingTransactionOutputs)) : List Nat :=
  m.map (fun p => p.1)

/-- A well-formed map image of a `HashMap`: no duplicate keys. -/
def MapWF (m : List (Nat × PendingTransactionOutputs)) : Prop :=
  (txKeys m).Nodup

instance (m : List (Nat × PendingTransactionOutputs)) : Decidable (MapWF m) := by
  unfold MapWF
  infer_instance

theorem lookupTx_eq_none_of_not_mem {t : Nat} {m : List (Nat × PendingTransactionOutputs)}
    (h : t ∉ txKeys m) : lookupTx t m = none := by
  induction m with
  | nil => rfl
  | cons p rest ih =>
    have h' : t ∉ p.1 :: txKeys rest := h
    have h1 : ¬ p.1 = t := fun hh => h' (hh ▸ List.mem_cons_self _ _)
    have h2 : t ∉ txKeys rest := fun hh => h' (List.mem_cons_of_mem _ hh)
    simp only [lookupTx, if_neg h1]
    exact ih h2

theorem lookupTx_eraseTx_self {t : Nat} {m : List (Nat × PendingTransactionOutputs)}
    (h : MapWF m) : lookupTx t (eraseTx t m) = none := by
  induction m with
  | nil => rfl
  | cons p rest ih =>
    have h' : (p.1 :: txKeys rest).Nodup := h
    have hwf : MapWF rest := (List.nodup_cons.mp h').2
    by_cases hp : p.1 = t
    · simp only [eraseTx, if_pos hp]
      exact lookupTx_eq_none_of_not_mem (hp ▸ (List.nodup_cons.mp h').1)
    · simp only [eraseTx, if_neg hp, lookupTx]
      exact ih hwf

/-! ## C4: `confirm_transaction` -/

/-- C4 counterexample: in a store whose two pending maps both hold tx id 7
(such states are reachable, since neither `short_term_encumber_outputs` nor
`write(Insert(PendingTransactionOutputs(..)))` checks the other map),
`confirm_transaction(7)` succeeds but the bundle under 7 is NOT removed from
both maps: the short-term copy survives, contradicting the claim. -/
theorem c4_confirm_transaction_counterexample :
    (InnerDatabase.confirm_transaction
        { InnerDatabase.new with
            pending_transactions := [(7, ⟨7, [], [], 0⟩)]
            short_term_pending_transactions := [(7, ⟨7, [⟨1, 1⟩], [], 0⟩)] } 7).2 = .ok () ∧
    lookupTx 7 (InnerDatabase.confirm_transaction
        { InnerDatabase.new with
            pending_transactions := [(7, ⟨7, [], [], 0⟩)]
            short_term_pending_transactions := [(7, ⟨7, [⟨1, 1⟩], [], 0⟩)] } 7).1.short_term_pending_transactions ≠
      none :=
  ⟨rfl, by decide⟩

/-- C4 (amended): `confirm_transaction(tx_id)` takes the bundle out of
`pending_transactions` if present there (leaving any short-term entry under
the same tx id in place), otherwise out of
`short_term_pending_transactions`; in either case it appends
`outputs_to_be_spent` to `spent_outputs` and `outputs_to_be_received` to
`unspent_outputs`.  When the tx id is held by at most one (well-formed) map,
the bundle is afterwards in neither map.  If neither map holds it, the call
fails with `ValueNotFound` and the state is unchanged. -/
theorem c4_confirm_transaction_characterisation (db : InnerDatabase) (t : Nat) :
    (∀ p, lookupTx t db.pending_transactions = some p →
      db.confirm_transaction t =
        ({ db with
            pending_transactions := eraseTx t db.pending_transactions
            spent_outputs := db.spent_outputs ++ p.outputs_to_be_spent
            unspent_outputs := db.unspent_outputs ++ p.outputs_to_be_received }, .ok ())) ∧
    (lookupTx t db.pending_transactions = none →
      ∀ p, lookupTx t db.short_term_pending_transactions = some p →
      db.confirm_transaction t =
        ({ db with
            short_term_pending_transactions := eraseTx t db.short_term_pending_transactions
            spent_outputs := db.spent_outputs ++ p.outputs_to_be_spent
            unspent_outputs := db.unspent_outputs ++ p.outputs_to_be_received }, .ok ())) ∧
    (lookupTx t db.pending_transactions = none →
      lookupTx t db.short_term_pending_transactions = none →
      db.confirm_transaction t =
        (db, .error (.ValueNotFound (.PendingTransactionOutputs t)))) ∧
    (MapWF db.pending_transactions → MapWF db.short_term_pending_transactions →
      (lookupTx t db.pending_transactions = none ∨
        lookupTx t db.short_term_pending_transactions = none) →
      lookupTx t (db.confirm_transaction t).1.pending_transactions = none ∧
      lookupTx t (db.confirm_transaction t).1.short_term_pending_transactions = none) := by
  refine ⟨?_, ?_, ?_, ?_⟩
  · intro p hp
    simp [InnerDatabase.confirm_transaction, hp]
  · intro hn p hp
    simp [InnerDatabase.confirm_transaction, hn, hp]
  · intro hn hs
    simp [InnerDatabase.confirm_transaction, hn, hs]
  · intro hwf1 hwf2 hdisj
    rcases hp : lookupTx t db.pending_transactions with _ | p
    · rcases hs : lookupTx t db.short_term_pending_transactions with _ | p
      · simp [InnerDatabase.confirm_transaction, hp, hs]
      · simp [InnerDatabase.confirm_transaction, hp, hs, lookupTx_eraseTx_self hwf2]
    · have hs : lookupTx t db.short_term_pending_transactions = none := by
        rcases hdisj with h | h
        · rw [hp] at h; cases h
        · exact h
      simp [InnerDatabase.confirm_transaction, hp, hs, lookupTx_eraseTx_self hwf1]

/-- C4 witness: confirming a bundle held only by `pending_transactions` drains
its outputs into `spent_outputs` / `unspent_outputs` and leaves it in neither
map. -/
theorem c4_confirm_transaction_witness :
    InnerDatabase.confirm_transaction
        { InnerDatabase.new with
            pending_transactions := [(7, ⟨7, [⟨1, 5⟩], [⟨2, 6⟩], 0⟩)] } 7 =
      ({ InnerDatabase.new with
          unspent_outputs := [⟨2, 6⟩]
          spent_outputs := [⟨1, 5⟩] }, .ok ()) ∧
    lookupTx 7 (InnerDatabase.confirm_transaction
        { InnerDatabase.new with
            pending_transactions := [(7, ⟨7, [⟨1, 5⟩], [⟨2, 6⟩], 0⟩)] } 7).1.pending_transactions =
      none := by
  have h := c4_confirm_transaction_characterisation
    { InnerDatabase.new with
        pending_transactions := [(7, ⟨7, [⟨1, 5⟩], [⟨2, 6⟩], 0⟩)] } 7
  constructor
  · have := h.1 ⟨7, [⟨1, 5⟩], [⟨2, 6⟩], 0⟩ (by decide)
    simpa using this
  · exact (h.2.2.2 (by decide) (by decide) (Or.inr (by decide))).1

/-! ## C5: encumber-then-cancel round trip -/

/-- The spending keys of a list of outputs, in order. -/
def spendKeys (l : List UnblindedOutput) : List Nat :=
  l.map (fun o => o.spending_key)

theorem hasKey_iff_mem_spendKeys {k : Nat} {l : List UnblindedOutput} :
    hasKey k l ↔ k ∈ spendKeys l := by
  simp [hasKey, spendKeys, List.mem_map]

theorem removeFirstByKey_perm {k : Nat} {o : UnblindedOutput} {l l' : List UnblindedOutput}
    (h : removeFirstByKey k l = some (o, l')) :
    o.spending_key = k ∧ l.Perm (o :: l') := by
  induction l generalizing l' with
  | nil => cases h
  | cons a rest ih =>
    by_cases ha : a.spending_key = k
    · simp only [removeFirstByKey, if_pos ha] at h
      cases h
      exact ⟨ha, List.Perm.refl _⟩
    · simp only [removeFirstByKey, if_neg ha] at h
      rcases hrec : removeFirstByKey k rest with _ | op
      · rw [hrec] at h; cases h
      · obtain ⟨o', rest'⟩ := op
        rw [hrec] at h
        cases h
        obtain ⟨hk, hp⟩ := ih hrec
        exact ⟨hk, (hp.cons a).trans (List.Perm.swap _ _ _)⟩

theorem removeFirstByKey_isSome {k : Nat} {l : List UnblindedOutput} (h : hasKey k l) :
    ∃ o l', removeFirstByKey k l = some (o, l') := by
  induction l with
  | nil => rcases h with ⟨v, hv, _⟩; cases hv
  | cons a rest ih =>
    by_cases ha : a.spending_key = k
    · exact ⟨a, rest, by simp [removeFirstByKey, ha]⟩
    · have h' : hasKey k rest := by
        rcases h with ⟨v, hv, hk⟩
        rcases List.mem_cons.mp hv with rfl | hvr
        · exact absurd hk ha
        · exact ⟨v, hvr, hk⟩
      obtain ⟨o, l', hrec⟩ := ih h'
      exact ⟨o, a :: l', by simp [removeFirstByKey, ha, hrec]⟩

/-- When the requested keys are distinct and all present, the encumber loop
succeeds and merely splits the unspent pool: no output is gained or lost. -/
theorem encumberLoop_ok {outs : List UnblindedOutput} :
    ∀ {u coll : List UnblindedOutput},
    (spendKeys outs).Nodup → (∀ o ∈ outs, hasKey o.spending_key u) →
    ∃ u' coll', encumberLoop outs u coll = (u', some coll') ∧
      (u : Multiset UnblindedOutput) + (coll : Multiset UnblindedOutput) =
        (u' : Multiset UnblindedOutput) + (coll' : Multiset UnblindedOutput) := by
  induction outs with
  | nil =>
    intro u coll _ _
    exact ⟨u, coll, rfl, rfl⟩
  | cons i rest ih =>
    intro u coll hnd hpres
    obtain ⟨o, u₁, hrm⟩ := removeFirstByKey_isSome (hpres i (List.mem_cons_self _ _))
    obtain ⟨hok, hperm⟩ := removeFirstByKey_perm hrm
    have hnd' : (spendKeys rest).Nodup := (List.nodup_cons.mp hnd).2
    have hni : i.spending_key ∉ spendKeys rest := (List.nodup_cons.mp hnd).1
    have hpres' : ∀ o' ∈ rest, hasKey o'.spending_key u₁ := by
      intro o' ho'
      have h1 : o'.spending_key ∈ spendKeys u :=
        hasKey_iff_mem_spendKeys.mp (hpres o' (List.mem_cons_of_mem _ ho'))
      have h2 : (spendKeys u).Perm (spendKeys (o :: u₁)) := hperm.map _
      have h3 : o'.spending_key ∈ spendKeys (o :: u₁) := h2.mem_iff.mp h1
      have h4 : o'.spending_key ≠ o.spending_key := by
        rw [hok]
        intro hc
        refine hni ?_
        rw [← hc]
        exact List.mem_map_of_mem _ ho'
      have h5 : spendKeys (o :: u₁) = o.spending_key :: spendKeys u₁ := rfl
      rw [h5] at h3
      rcases List.mem_cons.mp h3 with hc | hm
      · exact absurd hc h4
      · exact hasKey_iff_mem_spendKeys.mpr hm
    obtain ⟨u', coll', heq, hmul⟩ := @ih u₁ (coll ++ [o]) hnd' hpres'
    refine ⟨u', coll', ?_, ?_⟩
    · simp only [encumberLoop, hrm]
      exact heq
    · have hu : (u : Multiset UnblindedOutput) = o ::ₘ (u₁ : Multiset UnblindedOutput) := by
        have := Multiset.coe_eq_coe.mpr hperm
        simpa using this
      rw [hu, ← hmul, ← Multiset.coe_add, Multiset.coe_singleton, ← Multiset.singleton_add]
      abel

/-- C5 counterexample state: one unspent output (key 1) and a stale bundle
already sitting in `pending_transactions` under the same tx id 7 that the
encumbrance will use. -/
def c5CexDb : InnerDatabase :=
  { InnerDatabase.new with
      unspent_outputs := [⟨1, 1⟩]
      pending_transactions := [(7, ⟨7, [⟨9, 9⟩], [], 0⟩)] }

/-- C5 counterexample: all outputs of `outputs_to_send` are in `unspent`, yet
encumber-then-cancel does NOT restore `unspent`: `cancel_pending_transaction`
looks in `pending_transactions` first, finds the stale bundle under tx id 7,
and restores ITS outputs (key 9) instead of the just-encumbered ones (key 1).
Both calls succeed and the final unspent key multiset is {9}, not {1}. -/
theorem c5_roundtrip_counterexample :
    (c5CexDb.short_term_encumber_outputs 7 [⟨1, 1⟩] none 0).2 = .ok () ∧
    ((c5CexDb.short_term_encumber_outputs 7 [⟨1, 1⟩] none 0).1.cancel_pending_transaction 7).2 =
      .ok () ∧
    (spendKeys ((c5CexDb.short_term_encumber_outputs 7
        [⟨1, 1⟩] none 0).1.cancel_pending_transaction 7).1.unspent_outputs : Multiset Nat) ≠
      (spendKeys c5CexDb.unspent_outputs : Multiset Nat) :=
  ⟨rfl, rfl, by decide⟩

/-- C5 (amended): if the keys of `outputs_to_send` are pairwise distinct and
each is present in `unspent_outputs`, and `tx_id` is not already a key of
`pending_transactions` (otherwise the cancel resolves to the stale pending
bundle, see the counterexample), then `short_term_encumber_outputs` followed
by `cancel_pending_transaction` both succeed and leave `unspent_outputs`
equal, as a multiset of outputs and hence as a multiset of spending keys, to
the pre-encumbrance pool; the change output is discarded. -/
theorem c5_encumber_cancel_roundtrip (db : InnerDatabase) (tx_id : Nat)
    (outs : List UnblindedOutput) (change : Option UnblindedOutput) (now : Nat)
    (h1 : (spendKeys outs).Nodup)
    (h2 : ∀ o ∈ outs, hasKey o.spending_key db.unspent_outputs)
    (h3 : lookupTx tx_id db.pending_transactions = none) :
    ∃ db1 db2,
      db.short_term_encumber_outputs tx_id outs change now = (db1, .ok ()) ∧
      db1.cancel_pending_transaction tx_id = (db2, .ok ()) ∧
      (db2.unspent_outputs : Multiset UnblindedOutput) =
        (db.unspent_outputs : Multiset UnblindedOutput) ∧
      (spendKeys db2.unspent_outputs : Multiset Nat) =
        (spendKeys db.unspent_outputs : Multiset Nat) := by
  obtain ⟨u', coll', heq, hmul⟩ :=
    @encumberLoop_ok outs db.unspent_outputs [] h1 h2
  have hmul' : (db.unspent_outputs : Multiset UnblindedOutput) =
      (u' : Multiset UnblindedOutput) + (coll' : Multiset UnblindedOutput) := by
    simpa using hmul
  set b : PendingTransactionOutputs :=
    { tx_id := tx_id
      outputs_to_be_spent := coll'
      outputs_to_be_received := match change with | some co => [co] | none => []
      timestamp := now } with hb
  have henc : db.short_term_encumber_outputs tx_id outs change now =
      ({ db with
          unspent_outputs := u'
          short_term_pending_transactions :=
            insertTx tx_id b db.short_term_pending_transactions }, .ok ()) := by
    simp only [InnerDatabase.short_term_encumber_outputs, heq, hb]
  have hmul'' : ((u' ++ coll' : List UnblindedOutput) : Multiset UnblindedOutput) =
      (db.unspent_outputs : Multiset UnblindedOutput) := by
    rw [← Multiset.coe_add, hmul']
  refine ⟨{ db with
      unspent_outputs := u'
      short_term_pending_transactions := insertTx tx_id b db.short_term_pending_transactions },
    { db with
      unspent_outputs := u' ++ coll'
      short_term_pending_transactions := eraseTx tx_id db.short_term_pending_transactions },
    henc, ?_, hmul'', ?_⟩
  · simp [InnerDatabase.cancel_pending_transaction, h3, insertTx, lookupTx, eraseTx, hb]
  · have hmap := congrArg (Multiset.map (fun o => o.spending_key)) hmul''
    simpa [spendKeys] using hmap

/-- C5 witness: three unspent outputs {1,2,3}, encumber {1,2} under tx 7 with
a change output (key 4), then cancel 7: both calls succeed and the unspent
key multiset is again {1,2,3}. -/
theorem c5_encumber_cancel_roundtrip_witness :
    ∃ db1 db2,
      InnerDatabase.short_term_encumber_outputs
          { InnerDatabase.new with unspent_outputs := [⟨1, 1⟩, ⟨2, 2⟩, ⟨3, 3⟩] } 7
          [⟨1, 1⟩, ⟨2, 2⟩] (some ⟨4, 4⟩) 0 = (db1, .ok ()) ∧
      db1.cancel_pending_transaction 7 = (db2, .ok ()) ∧
      (db2.unspent_outputs : Multiset UnblindedOutput) =
        (([⟨1, 1⟩, ⟨2, 2⟩, ⟨3, 3⟩] : List UnblindedOutput) : Multiset UnblindedOutput) ∧
      (spendKeys db2.unspent_outputs : Multiset Nat) =
        (spendKeys [⟨1, 1⟩, ⟨2, 2⟩, ⟨3, 3⟩] : Multiset Nat) :=
  c5_encumber_cancel_roundtrip
    { InnerDatabase.new with unspent_outputs := [⟨1, 1⟩, ⟨2, 2⟩, ⟨3, 3⟩] } 7
    [⟨1, 1⟩, ⟨2, 2⟩] (some ⟨4, 4⟩) 0 (by decide) (by decide) (by decide)

/-! ## C2: global store invariants -/

/-- The spending keys referenced by one pending bundle (both output lists). -/
def outKeys (b : PendingTransactionOutputs) : List Nat :=
  spendKeys b.outputs_to_be_spent ++ spendKeys b.outputs_to_be_received

/-- All spending keys referenced by the bundles of a pending map. -/
def bundleKeys : List (Nat × PendingTransactionOutputs) → List Nat
  | [] => []
  | p :: rest => outKeys p.2 ++ bundleKeys rest

/-- Every spending-key occurrence in the store, in one list. -/
def allKeys (db : InnerDatabase) : List Nat :=
  spendKeys db.unspent_outputs ++ (spendKeys db.spent_outputs ++
    (spendKeys db.invalid_outputs ++ (bundleKeys db.pending_transactions ++
      bundleKeys db.short_term_pending_transactions)))

/-- Multiset view of `allKeys`. -/
def AllKeysM (db : InnerDatabase) : Multiset Nat :=
  (spendKeys db.unspent_outputs : Multiset Nat) +
    (spendKeys db.spent_outputs : Multiset Nat) +
    (spendKeys db.invalid_outputs : Multiset Nat) +
    (bundleKeys db.pending_transactions : Multiset Nat) +
    (bundleKeys db.short_term_pending_transactions : Multiset Nat)

theorem AllKeysM_coe (db : InnerDatabase) : AllKeysM db = (allKeys db : Multiset Nat) := by
  simp [AllKeysM, allKeys, Multiset.coe_add, List.append_assoc]

/-- O1 as claimed: every spending key appears at most once across the store
(at most one of the three sets, or one slot of one bundle). -/
def StoreO1 (db : InnerDatabase) : Prop := (allKeys db).Nodup

/-- O2 as claimed: the two pending maps have disjoint key sets. -/
def StoreO2 (db : InnerDatabase) : Prop :=
  ∀ t ∈ txKeys db.pending_transactions, t ∉ txKeys db.short_term_pending_transactions

/-- O3 as claimed: no output referenced by `outputs_to_be_spent` of any
pending bundle is present in `unspent_outputs`. -/
def StoreO3 (db : InnerDatabase) : Prop :=
  ∀ e ∈ db.pending_transactions ++ db.short_term_pending_transactions,
    ∀ o ∈ e.2.outputs_to_be_spent, ¬ hasKey o.spending_key db.unspent_outputs

/-- The inductive invariant carried through every operation: no duplicate key
occurrences anywhere, both maps well formed with disjoint key sets, and every
short-term entry stored under its bundle's own `tx_id`. -/
structure StoreInv (db : InnerDatabase) : Prop where
  nodup : (AllKeysM db).Nodup
  wfP : MapWF db.pending_transactions
  wfS : MapWF db.short_term_pending_transactions
  disj : ∀ t ∈ txKeys db.pending_transactions, t ∉ txKeys db.short_term_pending_transactions
  keyed : ∀ e ∈ db.short_term_pending_transactions, e.2.tx_id = e.1

theorem spendKeys_append (l₁ l₂ : List UnblindedOutput) :
    spendKeys (l₁ ++ l₂) = spendKeys l₁ ++ spendKeys l₂ :=
  List.map_append _ _ _

theorem eraseTx_sublist (t : Nat) (m : List (Nat × PendingTransactionOutputs)) :
    (eraseTx t m).Sublist m := by
  induction m with
  | nil => simp [eraseTx]
  | cons p rest ih =>
    by_cases hp : p.1 = t
    · simp only [eraseTx, if_pos hp]
      exact List.sublist_cons_self p rest
    · simp only [eraseTx, if_neg hp]
      exact ih.cons₂ p

theorem bundleKeys_sublist {m₁ m₂ : List (Nat × PendingTransactionOutputs)}
    (h : m₁.Sublist m₂) : (bundleKeys m₁).Sublist (bundleKeys m₂) := by
  induction h with
  | slnil => exact List.Sublist.refl _
  | cons p _ ih => exact ih.trans (List.sublist_append_right _ _)
  | cons₂ p _ ih => exact ih.append_left _

theorem coe_le_of_sublist {α : Type} {l₁ l₂ : List α} (h : l₁.Sublist l₂) :
    (l₁ : Multiset α) ≤ (l₂ : Multiset α) :=
  Multiset.coe_le.mpr h.subperm

theorem lookupTx_mem {t : Nat} {b : PendingTransactionOutputs}
    {m : List (Nat × PendingTransactionOutputs)} (h : lookupTx t m = some b) : (t, b) ∈ m := by
  induction m with
  | nil => cases h
  | cons p rest ih =>
    obtain ⟨p1, p2⟩ := p
    by_cases hp : p1 = t
    · subst hp
      simp only [lookupTx, if_pos rfl] at h
      cases h
      exact List.mem_cons_self _ _
    · simp only [lookupTx, if_neg hp] at h
      exact List.mem_cons_of_mem _ (ih h)

theorem lookupTx_ne_none_of_mem {t : Nat} {m : List (Nat × PendingTransactionOutputs)}
    (h : t ∈ txKeys m) : lookupTx t m ≠ none := by
  induction m with
  | nil => cases h
  | cons p rest ih =>
    by_cases hp : p.1 = t
    · simp [lookupTx, hp]
    · have h' : t ∈ txKeys rest := by
        have hm : t = p.1 ∨ t ∈ txKeys rest := List.mem_cons.mp h
        rcases hm with h1 | h1
        · exact absurd h1.symm hp
        · exact h1
      simp only [lookupTx, if_neg hp]
      exact ih h'

theorem not_mem_txKeys_eraseTx_self {t : Nat} {m : List (Nat × PendingTransactionOutputs)}
    (h : MapWF m) : t ∉ txKeys (eraseTx t m) :=
  fun hm => lookupTx_ne_none_of_mem hm (lookupTx_eraseTx_self h)

theorem eraseTx_eq_of_lookup_none {t : Nat} {m : List (Nat × PendingTransactionOutputs)}
    (h : lookupTx t m = none) : eraseTx t m = m := by
  induction m with
  | nil => rfl
  | cons p rest ih =>
    by_cases hp : p.1 = t
    · simp [lookupTx, hp] at h
    · simp only [lookupTx, if_neg hp] at h
      simp only [eraseTx, if_neg hp, ih h]

theorem txKeys_eraseTx_sublist (t : Nat) (m : List (Nat × PendingTransactionOutputs)) :
    (txKeys (eraseTx t m)).Sublist (txKeys m) :=
  (eraseTx_sublist t m).map _

theorem MapWF_eraseTx {t : Nat} {m : List (Nat × PendingTransactionOutputs)}
    (h : MapWF m) : MapWF (eraseTx t m) :=
  List.Nodup.sublist (txKeys_eraseTx_sublist t m) h

theorem bundleKeys_erase_eq {t : Nat} {b : PendingTransactionOutputs}
    {m : List (Nat × PendingTransactionOutputs)} (h : lookupTx t m = some b) :
    (bundleKeys m : Multiset Nat) =
      (outKeys b : Multiset Nat) + (bundleKeys (eraseTx t m) : Multiset Nat) := by
  induction m with
  | nil => cases h
  | cons p rest ih =>
    by_cases hp : p.1 = t
    · simp only [lookupTx, if_pos hp] at h
      cases h
      simp only [eraseTx, if_pos hp, bundleKeys]
      rw [Multiset.coe_add]
    · simp only [lookupTx, if_neg hp] at h
      simp only [eraseTx, if_neg hp, bundleKeys]
      rw [← Multiset.coe_add, ← Multiset.coe_add, ih h]
      abel

theorem mem_bundleKeys {e : Nat × PendingTransactionOutputs}
    {m : List (Nat × PendingTransactionOutputs)} {k : Nat}
    (he : e ∈ m) (hk : k ∈ outKeys e.2) : k ∈ bundleKeys m := by
  induction m with
  | nil => cases he
  | cons p rest ih =>
    rcases List.mem_cons.mp he with rfl | h
    · exact List.mem_append_left _ hk
    · exact List.mem_append_right _ (ih h)

theorem encumberLoop_some_multiset {outs : List UnblindedOutput} :
    ∀ {u coll u' coll' : List UnblindedOutput},
    encumberLoop outs u coll = (u', some coll') →
    (u : Multiset UnblindedOutput) + (coll : Multiset UnblindedOutput) =
      (u' : Multiset UnblindedOutput) + (coll' : Multiset UnblindedOutput) := by
  induction outs with
  | nil =>
    intro u coll u' coll' h
    simp only [encumberLoop, Prod.mk.injEq, Option.some.injEq] at h
    obtain ⟨rfl, rfl⟩ := h
    rfl
  | cons i rest ih =>
    intro u coll u' coll' h
    simp only [encumberLoop] at h
    rcases hrm : removeFirstByKey i.spending_key u with _ | op
    · rw [hrm] at h
      simp at h
    · obtain ⟨o, u₁⟩ := op
      rw [hrm] at h
      have hmul := ih h
      obtain ⟨-, hperm⟩ := removeFirstByKey_perm hrm
      have hu : (u : Multiset UnblindedOutput) = o ::ₘ (u₁ : Multiset UnblindedOutput) := by
        have := Multiset.coe_eq_coe.mpr hperm
        simpa using this
      rw [hu, ← hmul, ← Multiset.coe_add, Multiset.coe_singleton, ← Multiset.singleton_add]
      abel

theorem encumberLoop_none_le {outs : List UnblindedOutput} :
    ∀ {u coll u' : List UnblindedOutput},
    encumberLoop outs u coll = (u', none) →
    (u' : Multiset UnblindedOutput) ≤ (u : Multiset UnblindedOutput) := by
  induction outs with
  | nil =>
    intro u coll u' h
    simp only [encumberLoop, Prod.mk.injEq] at h
    exact absurd h.2 (by simp)
  | cons i rest ih =>
    intro u coll u' h
    simp only [encumberLoop] at h
    rcases hrm : removeFirstByKey i.spending_key u with _ | op
    · rw [hrm] at h
      simp only [Prod.mk.injEq] at h
      rw [← h.1]
    · obtain ⟨o, u₁⟩ := op
      rw [hrm] at h
      obtain ⟨-, hperm⟩ := removeFirstByKey_perm hrm
      have hu : (u : Multiset UnblindedOutput) = o ::ₘ (u₁ : Multiset UnblindedOutput) := by
        have := Multiset.coe_eq_coe.mpr hperm
        simpa using this
      exact (ih h).trans (hu ▸ Multiset.le_cons_self _ _)

theorem hasKey_iff_any {k : Nat} {l : List UnblindedOutput} :
    hasKey k l ↔ l.any (fun v => v.spending_key == k) = true := by
  simp [hasKey, List.any_eq_true]

theorem AllKeysM_mono {db db' : InnerDatabase}
    (hU : (spendKeys db'.unspent_outputs : Multiset Nat) ≤
      (spendKeys db.unspent_outputs : Multiset Nat))
    (hS : (spendKeys db'.spent_outputs : Multiset Nat) ≤
      (spendKeys db.spent_outputs : Multiset Nat))
    (hI : (spendKeys db'.invalid_outputs : Multiset Nat) ≤
      (spendKeys db.invalid_outputs : Multiset Nat))
    (hP : (bundleKeys db'.pending_transactions : Multiset Nat) ≤
      (bundleKeys db.pending_transactions : Multiset Nat))
    (hQ : (bundleKeys db'.short_term_pending_transactions : Multiset Nat) ≤
      (bundleKeys db.short_term_pending_transactions : Multiset Nat)) :
    AllKeysM db' ≤ AllKeysM db :=
  add_le_add (add_le_add (add_le_add (add_le_add hU hS) hI) hP) hQ

theorem removeFirstByKey_keysM {k : Nat} {o : UnblindedOutput} {l rest : List UnblindedOutput}
    (h : removeFirstByKey k l = some (o, rest)) :
    (spendKeys l : Multiset Nat) = o.spending_key ::ₘ (spendKeys rest : Multiset Nat) := by
  obtain ⟨-, hperm⟩ := removeFirstByKey_perm h
  have := Multiset.coe_eq_coe.mpr (hperm.map (fun x => x.spending_key))
  simpa [spendKeys] using this

theorem mem_AllKeysM {k : Nat} {db : InnerDatabase} :
    k ∈ AllKeysM db ↔
      (hasKey k db.unspent_outputs ∨ hasKey k db.spent_outputs ∨
        hasKey k db.invalid_outputs ∨ k ∈ bundleKeys db.pending_transactions ∨
        k ∈ bundleKeys db.short_term_pending_transactions) := by
  simp only [AllKeysM, Multiset.mem_add, Multiset.mem_coe, hasKey_iff_mem_spendKeys]
  tauto

theorem storeInv_insert_unspent {db : InnerDatabase} (inv : StoreInv db) (o : UnblindedOutput)
    (h1 : o.spending_key ∉ spendKeys db.invalid_outputs)
    (h2 : o.spending_key ∉ bundleKeys db.pending_transactions)
    (h3 : o.spending_key ∉ bundleKeys db.short_term_pending_transactions) :
    StoreInv (db.write (.Insert (.UnspentOutput o.spending_key o))).1 := by
  by_cases hc : (db.unspent_outputs.any (fun v => v.spending_key == o.spending_key) ||
      db.spent_outputs.any (fun v => v.spending_key == o.spending_key)) = true
  · simp only [InnerDatabase.write]
    rw [if_pos hc]
    exact inv
  · simp only [InnerDatabase.write]
    rw [if_neg hc]
    show StoreInv { db with unspent_outputs := db.unspent_outputs ++ [o] }
    have hor := Bool.or_eq_false_iff.mp (Bool.eq_false_iff.mpr hc)
    have hcu : ¬ hasKey o.spending_key db.unspent_outputs := by
      rw [hasKey_iff_any, hor.1]
      simp
    have hcs : ¬ hasKey o.spending_key db.spent_outputs := by
      rw [hasKey_iff_any, hor.2]
      simp
    have hfresh : o.spending_key ∉ AllKeysM db := by
      rw [mem_AllKeysM]
      push_neg
      exact ⟨hcu, hcs, fun hx => h1 (hasKey_iff_mem_spendKeys.mp hx), h2, h3⟩
    refine ⟨?_, inv.wfP, inv.wfS, inv.disj, inv.keyed⟩
    have heq : AllKeysM { db with unspent_outputs := db.unspent_outputs ++ [o] } =
        o.spending_key ::ₘ AllKeysM db := by
      simp only [AllKeysM, spendKeys_append, ← Multiset.coe_add, ← Multiset.singleton_add]
      have hsk : spendKeys [o] = [o.spending_key] := rfl
      rw [hsk, Multiset.coe_singleton]
      abel
    rw [heq]
    exact Multiset.nodup_cons.mpr ⟨hfresh, inv.nodup⟩

theorem storeInv_insert_spent {db : InnerDatabase} (inv : StoreInv db) (o : UnblindedOutput)
    (h1 : o.spending_key ∉ spendKeys db.invalid_outputs)
    (h2 : o.spending_key ∉ bundleKeys db.pending_transactions)
    (h3 : o.spending_key ∉ bundleKeys db.short_term_pending_transactions) :
    StoreInv (db.write (.Insert (.SpentOutput o.spending_key o))).1 := by
  by_cases hc : (db.spent_outputs.any (fun v => v.spending_key == o.spending_key) ||
      db.unspent_outputs.any (fun v => v.spending_key == o.spending_key)) = true
  · simp only [InnerDatabase.write]
    rw [if_pos hc]
    exact inv
  · simp only [InnerDatabase.write]
    rw [if_neg hc]
    show StoreInv { db with spent_outputs := db.spent_outputs ++ [o] }
    have hor := Bool.or_eq_false_iff.mp (Bool.eq_false_iff.mpr hc)
    have hcs : ¬ hasKey o.spending_key db.spent_outputs := by
      rw [hasKey_iff_any, hor.1]
      simp
    have hcu : ¬ hasKey o.spending_key db.unspent_outputs := by
      rw [hasKey_iff_any, hor.2]
      simp
    have hfresh : o.spending_key ∉ AllKeysM db := by
      rw [mem_AllKeysM]
      push_neg
      exact ⟨hcu, hcs, fun hx => h1 (hasKey_iff_mem_spendKeys.mp hx), h2, h3⟩
    refine ⟨?_, inv.wfP, inv.wfS, inv.disj, inv.keyed⟩
    have heq : AllKeysM { db with spent_outputs := db.spent_outputs ++ [o] } =
        o.spending_key ::ₘ AllKeysM db := by
      simp only [AllKeysM, spendKeys_append, ← Multiset.coe_add, ← Multiset.singleton_add]
      have hsk : spendKeys [o] = [o.spending_key] := rfl
      rw [hsk, Multiset.coe_singleton]
      abel
    rw [heq]
    exact Multiset.nodup_cons.mpr ⟨hfresh, inv.nodup⟩

theorem storeInv_insert_km {db : InnerDatabase} (inv : StoreInv db) (km : KeyManagerState) :
    StoreInv (db.write (.Insert (.KeyManagerState km))).1 :=
  ⟨inv.nodup, inv.wfP, inv.wfS, inv.disj, inv.keyed⟩

theorem storeInv_remove {db : InnerDatabase} (inv : StoreInv db) (k : DbKey) :
    StoreInv (db.write (.Remove k)).1 := by
  cases k with
  | SpentOutput kk =>
    rcases hr : removeFirstByKey kk db.spent_outputs with _ | p
    · simp only [InnerDatabase.write, hr]
      exact inv
    · obtain ⟨o, rest⟩ := p
      simp only [InnerDatabase.write, hr]
      refine ⟨Multiset.nodup_of_le (AllKeysM_mono ?_ ?_ ?_ ?_ ?_) inv.nodup, inv.wfP, inv.wfS,
        inv.disj, inv.keyed⟩
      · exact le_rfl
      · rw [removeFirstByKey_keysM hr]
        exact Multiset.le_cons_self _ _
      · exact le_rfl
      · exact le_rfl
      · exact le_rfl
  | UnspentOutput kk =>
    rcases hr : removeFirstByKey kk db.unspent_outputs with _ | p
    · simp only [InnerDatabase.write, hr]
      exact inv
    · obtain ⟨o, rest⟩ := p
      simp only [InnerDatabase.write, hr]
      refine ⟨Multiset.nodup_of_le (AllKeysM_mono ?_ ?_ ?_ ?_ ?_) inv.nodup, inv.wfP, inv.wfS,
        inv.disj, inv.keyed⟩
      · rw [removeFirstByKey_keysM hr]
        exact Multiset.le_cons_self _ _
      · exact le_rfl
      · exact le_rfl
      · exact le_rfl
      · exact le_rfl
  | PendingTransactionOutputs t =>
    rcases hp : lookupTx t db.pending_transactions with _ | b
    · simp only [InnerDatabase.write, hp]
      exact inv
    · simp only [InnerDatabase.write, hp]
      refine ⟨Multiset.nodup_of_le (AllKeysM_mono ?_ ?_ ?_ ?_ ?_) inv.nodup,
        MapWF_eraseTx inv.wfP, inv.wfS, ?_, inv.keyed⟩
      · exact le_rfl
      · exact le_rfl
      · exact le_rfl
      · exact coe_le_of_sublist (bundleKeys_sublist (eraseTx_sublist t db.pending_transactions))
      · exact le_rfl
      · intro t' ht'
        exact inv.disj t' ((txKeys_eraseTx_sublist t _).subset ht')
  | UnspentOutputs => exact inv
  | SpentOutputs => exact inv
  | AllPendingTransactionOutputs => exact inv
  | KeyManagerState => exact inv
  | InvalidOutputs => exact inv

theorem storeInv_confirm_transaction {db : InnerDatabase} (inv : StoreInv db) (t : Nat) :
    StoreInv (db.confirm_transaction t).1 := by
  rcases hp : lookupTx t db.pending_transactions with _ | b
  · rcases hs : lookupTx t db.short_term_pending_transactions with _ | b
    · simp only [InnerDatabase.confirm_transaction, hp, hs]
      exact inv
    · simp only [InnerDatabase.confirm_transaction, hp, hs]
      refine ⟨?_, inv.wfP, MapWF_eraseTx inv.wfS, ?_, ?_⟩
      · have heq : AllKeysM db =
            AllKeysM { db with
              short_term_pending_transactions := eraseTx t db.short_term_pending_transactions
              spent_outputs := db.spent_outputs ++ b.outputs_to_be_spent
              unspent_outputs := db.unspent_outputs ++ b.outputs_to_be_received } := by
          simp only [AllKeysM, spendKeys_append, bundleKeys_erase_eq hs, outKeys,
            ← Multiset.coe_add]
          abel
        rw [← heq]
        exact inv.nodup
      · intro t' ht' hc
        exact inv.disj t' ht' ((txKeys_eraseTx_sublist t _).subset hc)
      · intro e he
        exact inv.keyed e ((eraseTx_sublist t _).subset he)
  · simp only [InnerDatabase.confirm_transaction, hp]
    refine ⟨?_, MapWF_eraseTx inv.wfP, inv.wfS, ?_, inv.keyed⟩
    · have heq : AllKeysM db =
          AllKeysM { db with
            pending_transactions := eraseTx t db.pending_transactions
            spent_outputs := db.spent_outputs ++ b.outputs_to_be_spent
            unspent_outputs := db.unspent_outputs ++ b.outputs_to_be_received } := by
        simp only [AllKeysM, spendKeys_append, bundleKeys_erase_eq hp, outKeys,
          ← Multiset.coe_add]
        abel
      rw [← heq]
      exact inv.nodup
    · intro t' ht'
      exact inv.disj t' ((txKeys_eraseTx_sublist t _).subset ht')

theorem storeInv_encumber {db : InnerDatabase} (inv : StoreInv db) (t : Nat)
    (outs : List UnblindedOutput) (change : Option UnblindedOutput) (now : Nat)
    (h1 : t ∉ txKeys db.pending_transactions)
    (h2 : ∀ co, change = some co → co.spending_key ∉ allKeys db) :
    StoreInv (db.short_term_encumber_outputs t outs change now).1 := by
  rcases hloop : encumberLoop outs db.unspent_outputs [] with ⟨u', r⟩
  rcases r with _ | coll'
  · simp only [InnerDatabase.short_term_encumber_outputs, hloop]
    show StoreInv { db with unspent_outputs := u' }
    refine ⟨Multiset.nodup_of_le (AllKeysM_mono ?_ ?_ ?_ ?_ ?_) inv.nodup, inv.wfP, inv.wfS,
      inv.disj, inv.keyed⟩
    · have hm := @Multiset.map_le_map _ _ (fun o => o.spending_key) _ _ (encumberLoop_none_le hloop)
      simpa [spendKeys] using hm
    · exact le_rfl
    · exact le_rfl
    · exact le_rfl
    · exact le_rfl
  · have hkeys : (spendKeys db.unspent_outputs : Multiset Nat) =
        (spendKeys u' : Multiset Nat) + (spendKeys coll' : Multiset Nat) := by
      have hm := congrArg (Multiset.map (fun o => o.spending_key))
        (encumberLoop_some_multiset hloop)
      simpa [spendKeys] using hm
    obtain ⟨rQ, hrQ⟩ := Multiset.le_iff_exists_add.mp
      (coe_le_of_sublist (bundleKeys_sublist
        (eraseTx_sublist t db.short_term_pending_transactions)))
    have hwfSnew : MapWF (insertTx t
        ⟨t, coll', (match change with | some co => [co] | none => []), now⟩
        db.short_term_pending_transactions) :=
      List.nodup_cons.mpr ⟨not_mem_txKeys_eraseTx_self inv.wfS, MapWF_eraseTx inv.wfS⟩
    have hdisjnew : ∀ t' ∈ txKeys db.pending_transactions,
        t' ∉ txKeys (insertTx t
          ⟨t, coll', (match change with | some co => [co] | none => []), now⟩
          db.short_term_pending_transactions) := by
      intro t' ht' hc
      rcases List.mem_cons.mp hc with rfl | hc'
      · exact h1 ht'
      · exact inv.disj t' ht' ((txKeys_eraseTx_sublist t _).subset hc')
    have hkeyednew : ∀ e ∈ insertTx t
        ⟨t, coll', (match change with | some co => [co] | none => []), now⟩
        db.short_term_pending_transactions, e.2.tx_id = e.1 := by
      intro e he
      rcases List.mem_cons.mp he with rfl | he'
      · rfl
      · exact inv.keyed e ((eraseTx_sublist t _).subset he')
    rcases change with _ | co
    · simp only [InnerDatabase.short_term_encumber_outputs, hloop]
      refine ⟨?_, inv.wfP, hwfSnew, hdisjnew, hkeyednew⟩
      have key : AllKeysM { db with
          unspent_outputs := u'
          short_term_pending_transactions :=
            insertTx t ⟨t, coll', [], now⟩ db.short_term_pending_transactions } + rQ =
          AllKeysM db := by
        simp only [AllKeysM, insertTx, bundleKeys, outKeys, spendKeys, List.map_nil,
          List.append_nil, ← Multiset.coe_add]
        rw [hrQ]
        have hk' := hkeys
        simp only [spendKeys] at hk'
        rw [hk']
        abel
      exact Multiset.nodup_of_le (Multiset.le_iff_exists_add.mpr ⟨rQ, key.symm⟩) inv.nodup
    · have hco : co.spending_key ∉ AllKeysM db := by
        rw [AllKeysM_coe]
        exact fun hm => h2 co rfl (Multiset.mem_coe.mp hm)
      simp only [InnerDatabase.short_term_encumber_outputs, hloop]
      refine ⟨?_, inv.wfP, hwfSnew, hdisjnew, hkeyednew⟩
      have key : AllKeysM { db with
          unspent_outputs := u'
          short_term_pending_transactions :=
            insertTx t ⟨t, coll', [co], now⟩ db.short_term_pending_transactions } + rQ =
          co.spending_key ::ₘ AllKeysM db := by
        simp only [AllKeysM, insertTx, bundleKeys, outKeys, ← Multiset.singleton_add,
          ← Multiset.coe_add]
        rw [hrQ, hkeys]
        have hsk : spendKeys [co] = [co.spending_key] := rfl
        rw [hsk, Multiset.coe_singleton]
        abel
      refine Multiset.nodup_of_le (Multiset.le_iff_exists_add.mpr ⟨rQ, key.symm⟩) ?_
      exact Multiset.nodup_cons.mpr ⟨hco, inv.nodup⟩

theorem storeInv_confirm_encumbered {db : InnerDatabase} (inv : StoreInv db) (t : Nat) :
    StoreInv (db.confirm_encumbered_outputs t).1 := by
  rcases hs : lookupTx t db.short_term_pending_transactions with _ | b
  · simp only [InnerDatabase.confirm_encumbered_outputs, hs]
    exact inv
  · have hbt : b.tx_id = t := inv.keyed (t, b) (lookupTx_mem hs)
    simp only [InnerDatabase.confirm_encumbered_outputs, hs]
    rw [hbt]
    obtain ⟨rP, hrP⟩ := Multiset.le_iff_exists_add.mp
      (coe_le_of_sublist (bundleKeys_sublist (eraseTx_sublist t db.pending_transactions)))
    refine ⟨?_, ?_, MapWF_eraseTx inv.wfS, ?_, ?_⟩
    · have key : AllKeysM { db with
          short_term_pending_transactions := eraseTx t db.short_term_pending_transactions
          pending_transactions := insertTx t b db.pending_transactions } + rP =
          AllKeysM db := by
        simp only [AllKeysM, insertTx, bundleKeys, bundleKeys_erase_eq hs, ← Multiset.coe_add]
        rw [hrP]
        abel
      exact Multiset.nodup_of_le (Multiset.le_iff_exists_add.mpr ⟨rP, key.symm⟩) inv.nodup
    · exact List.nodup_cons.mpr ⟨not_mem_txKeys_eraseTx_self inv.wfP, MapWF_eraseTx inv.wfP⟩
    · intro t' ht' hc
      rcases List.mem_cons.mp ht' with rfl | ht''
      · exact not_mem_txKeys_eraseTx_self inv.wfS hc
      · exact inv.disj t' ((txKeys_eraseTx_sublist t _).subset ht'')
          ((txKeys_eraseTx_sublist t _).subset hc)
    · intro e he
      exact inv.keyed e ((eraseTx_sublist t _).subset he)

theorem storeInv_cancel {db : InnerDatabase} (inv : StoreInv db) (t : Nat) :
    StoreInv (db.cancel_pending_transaction t).1 := by
  rcases hp : lookupTx t db.pending_transactions with _ | b
  · rcases hs : lookupTx t db.short_term_pending_transactions with _ | b
    · simp only [InnerDatabase.cancel_pending_transaction, hp, hs]
      exact inv
    · simp only [InnerDatabase.cancel_pending_transaction, hp, hs]
      refine ⟨?_, inv.wfP, MapWF_eraseTx inv.wfS, ?_, ?_⟩
      · have key : AllKeysM { db with
            short_term_pending_transactions := eraseTx t db.short_term_pending_transactions
            unspent_outputs := db.unspent_outputs ++ b.outputs_to_be_spent } +
            (spendKeys b.outputs_to_be_received : Multiset Nat) = AllKeysM db := by
          simp only [AllKeysM, spendKeys_append, bundleKeys_erase_eq hs, outKeys,
            ← Multiset.coe_add]
          abel
        exact Multiset.nodup_of_le (Multiset.le_iff_exists_add.mpr ⟨_, key.symm⟩) inv.nodup
      · intro t' ht' hc
        exact inv.disj t' ht' ((txKeys_eraseTx_sublist t _).subset hc)
      · intro e he
        exact inv.keyed e ((eraseTx_sublist t _).subset he)
  · simp only [InnerDatabase.cancel_pending_transaction, hp]
    refine ⟨?_, MapWF_eraseTx inv.wfP, inv.wfS, ?_, inv.keyed⟩
    · have key : AllKeysM { db with
          pending_transactions := eraseTx t db.pending_transactions
          unspent_outputs := db.unspent_outputs ++ b.outputs_to_be_spent } +
          (spendKeys b.outputs_to_be_received : Multiset Nat) = AllKeysM db := by
        simp only [AllKeysM, spendKeys_append, bundleKeys_erase_eq hp, outKeys,
          ← Multiset.coe_add]
        abel
      exact Multiset.nodup_of_le (Multiset.le_iff_exists_add.mpr ⟨_, key.symm⟩) inv.nodup
    · intro t' ht'
      exact inv.disj t' ((txKeys_eraseTx_sublist t _).subset ht')

theorem storeInv_cancelList {ts : List Nat} :
    ∀ {db : InnerDatabase}, StoreInv db → StoreInv (cancelList ts db).1 := by
  induction ts with
  | nil => intro db inv; exact inv
  | cons t rest ih =>
    intro db inv
    have hstep := storeInv_cancel inv t
    simp only [cancelList]
    rcases hc : db.cancel_pending_transaction t with ⟨db', r⟩
    rw [hc] at hstep
    rcases r with e | u
    · exact hstep
    · exact ih hstep

theorem storeInv_clear {db : InnerDatabase} (inv : StoreInv db) :
    StoreInv db.clear_short_term_encumberances.1 :=
  storeInv_cancelList inv

theorem storeInv_timeout {db : InnerDatabase} (inv : StoreInv db) (period now : Nat) :
    StoreInv (db.timeout_pending_transactions period now).1 :=
  storeInv_cancelList inv

theorem storeInv_invalidate {db : InnerDatabase} (inv : StoreInv db) (output : UnblindedOutput) :
    StoreInv (db.invalidate_unspent_output output).1 := by
  rcases hr : removeFirstByKey output.spending_key db.unspent_outputs with _ | p
  · simp only [InnerDatabase.invalidate_unspent_output, hr]
    exact inv
  · obtain ⟨o, rest⟩ := p
    simp only [InnerDatabase.invalidate_unspent_output, hr]
    refine ⟨?_, inv.wfP, inv.wfS, inv.disj, inv.keyed⟩
    have key : AllKeysM { db with
        unspent_outputs := rest
        invalid_outputs := db.invalid_outputs ++ [o] } = AllKeysM db := by
      simp only [AllKeysM, spendKeys_append, removeFirstByKey_keysM hr, ← Multiset.coe_add,
        ← Multiset.singleton_add]
      have hsk : spendKeys [o] = [o.spending_key] := rfl
      rw [hsk, Multiset.coe_singleton]
      abel
    rw [key]
    exact inv.nodup

theorem storeInv_increment {db : InnerDatabase} (inv : StoreInv db) :
    StoreInv db.increment_key_index.1 := by
  rcases hk : db.key_manager_state with _ | st
  · simp only [InnerDatabase.increment_key_index, hk]
    exact inv
  · simp only [InnerDatabase.increment_key_index, hk]
    exact ⟨inv.nodup, inv.wfP, inv.wfS, inv.disj, inv.keyed⟩

/-- One public mutating store operation, as dispatched through the
`OutputManagerBackend` surface, restricted exactly as the amended C2 claim
requires: no `write(Insert(PendingTransactionOutputs(..)))`; an output insert
uses the output's own spending key, which must not already sit in
`invalid_outputs` or inside any pending bundle (presence in `unspent`/`spent`
is rejected by the code's own duplicate check); an encumbrance uses a tx id
not held by `pending_transactions` and a change output whose key is fresh for
the whole store.  Both the success and the error outcome of every call are
steps. -/
inductive Step : InnerDatabase → InnerDatabase → Prop where
  | insert_unspent (db : InnerDatabase) (o : UnblindedOutput)
      (h1 : o.spending_key ∉ spendKeys db.invalid_outputs)
      (h2 : o.spending_key ∉ bundleKeys db.pending_transactions)
      (h3 : o.spending_key ∉ bundleKeys db.short_term_pending_transactions) :
      Step db (db.write (.Insert (.UnspentOutput o.spending_key o))).1
  | insert_spent (db : InnerDatabase) (o : UnblindedOutput)
      (h1 : o.spending_key ∉ spendKeys db.invalid_outputs)
      (h2 : o.spending_key ∉ bundleKeys db.pending_transactions)
      (h3 : o.spending_key ∉ bundleKeys db.short_term_pending_transactions) :
      Step db (db.write (.Insert (.SpentOutput o.spending_key o))).1
  | insert_key_manager (db : InnerDatabase) (km : KeyManagerState) :
      Step db (db.write (.Insert (.KeyManagerState km))).1
  | remove (db : InnerDatabase) (k : DbKey) : Step db (db.write (.Remove k)).1
  | confirm_tx (db : InnerDatabase) (t : Nat) : Step db (db.confirm_transaction t).1
  | encumber (db : InnerDatabase) (t : Nat) (outs : List UnblindedOutput)
      (change : Option UnblindedOutput) (now : Nat)
      (h1 : t ∉ txKeys db.pending_transactions)
      (h2 : ∀ co, change = some co → co.spending_key ∉ allKeys db) :
      Step db (db.short_term_encumber_outputs t outs change now).1
  | confirm_enc (db : InnerDatabase) (t : Nat) : Step db (db.confirm_encumbered_outputs t).1
  | cancel (db : InnerDatabase) (t : Nat) : Step db (db.cancel_pending_transaction t).1
  | clear (db : InnerDatabase) : Step db db.clear_short_term_encumberances.1
  | timeout (db : InnerDatabase) (period now : Nat) :
      Step db (db.timeout_pending_transactions period now).1
  | invalidate (db : InnerDatabase) (output : UnblindedOutput) :
      Step db (db.invalidate_unspent_output output).1
  | increment (db : InnerDatabase) : Step db db.increment_key_index.1

/-- Store states reachable from the empty store by the restricted operations. -/
inductive Reachable : InnerDatabase → Prop where
  | base : Reachable InnerDatabase.new
  | step {db db' : InnerDatabase} : Reachable db → Step db db' → Reachable db'

theorem storeInv_step {db db' : InnerDatabase} (inv : StoreInv db) (h : Step db db') :
    StoreInv db' := by
  cases h with
  | insert_unspent o h1 h2 h3 => exact storeInv_insert_unspent inv o h1 h2 h3
  | insert_spent o h1 h2 h3 => exact storeInv_insert_spent inv o h1 h2 h3
  | insert_key_manager km => exact storeInv_insert_km inv km
  | remove k => exact storeInv_remove inv k
  | confirm_tx t => exact storeInv_confirm_transaction inv t
  | encumber t outs change now h1 h2 => exact storeInv_encumber inv t outs change now h1 h2
  | confirm_enc t => exact storeInv_confirm_encumbered inv t
  | cancel t => exact storeInv_cancel inv t
  | clear => exact storeInv_clear inv
  | timeout period now => exact storeInv_timeout inv period now
  | invalidate o => exact storeInv_invalidate inv o
  | increment => exact storeInv_increment inv

theorem storeInv_new : StoreInv InnerDatabase.new := by
  constructor <;>
    simp [AllKeysM, InnerDatabase.new, spendKeys, bundleKeys, MapWF, txKeys]

theorem storeInv_reachable {db : InnerDatabase} (h : Reachable db) : StoreInv db := by
  induction h with
  | base => exact storeInv_new
  | step hr hs ih => exact storeInv_step ih hs

theorem storeO1_of_inv {db : InnerDatabase} (inv : StoreInv db) : StoreO1 db := by
  have h := inv.nodup
  rw [AllKeysM_coe] at h
  exact Multiset.coe_nodup.mp h

theorem storeO3_of_inv {db : InnerDatabase} (inv : StoreInv db) : StoreO3 db := by
  intro e he o ho hk
  have h1 : o.spending_key ∈ spendKeys db.unspent_outputs := hasKey_iff_mem_spendKeys.mp hk
  have hko : o.spending_key ∈ outKeys e.2 :=
    List.mem_append_left _ (List.mem_map_of_mem _ ho)
  have hcount := (Multiset.nodup_iff_count_le_one.mp inv.nodup) o.spending_key
  simp only [AllKeysM, Multiset.count_add] at hcount
  have c1 : 0 < Multiset.count o.spending_key
      ((spendKeys db.unspent_outputs : List Nat) : Multiset Nat) :=
    Multiset.count_pos.mpr (Multiset.mem_coe.mpr h1)
  rcases List.mem_append.mp he with hp | hq
  · have c2 : 0 < Multiset.count o.spending_key
        ((bundleKeys db.pending_transactions : List Nat) : Multiset Nat) :=
      Multiset.count_pos.mpr (Multiset.mem_coe.mpr (mem_bundleKeys hp hko))
    omega
  · have c2 : 0 < Multiset.count o.spending_key
        ((bundleKeys db.short_term_pending_transactions : List Nat) : Multiset Nat) :=
      Multiset.count_pos.mpr (Multiset.mem_coe.mpr (mem_bundleKeys hq hko))
    omega

/-- C2 counterexample: starting from the empty store, two public operations —
a successful `write(Insert(UnspentOutput(1, ..)))` followed by a successful
`write(Insert(PendingTransactionOutputs(5, ..)))` whose bundle lists the same
key-1 output in `outputs_to_be_spent` — yield a state violating O3: the
output is in `unspent_outputs` AND referenced as to-be-spent by a pending
bundle.  So the invariants do NOT hold after every operation sequence. -/
theorem c2_invariants_counterexample :
    (InnerDatabase.new.write (.Insert (.UnspentOutput 1 ⟨1, 10⟩))).2 = .ok none ∧
    ((InnerDatabase.new.write (.Insert (.UnspentOutput 1 ⟨1, 10⟩))).1.write
        (.Insert (.PendingTransactionOutputs 5 ⟨5, [⟨1, 10⟩], [], 0⟩))).2 = .ok none ∧
    ¬ StoreO3 ((InnerDatabase.new.write (.Insert (.UnspentOutput 1 ⟨1, 10⟩))).1.write
        (.Insert (.PendingTransactionOutputs 5 ⟨5, [⟨1, 10⟩], [], 0⟩))).1 := by
  refine ⟨rfl, rfl, ?_⟩
  intro h
  exact h (5, ⟨5, [⟨1, 10⟩], [], 0⟩) (by decide) ⟨1, 10⟩ (by decide)
    ⟨⟨1, 10⟩, by decide, rfl⟩

/-- C2 (amended): the invariants O1 (each spending key occurs at most once
across `unspent`, `spent`, `invalid`, and the bundles of both pending maps),
O2 (the two pending maps have disjoint tx-id sets) and O3 (no to-be-spent
output of a bundle is in `unspent`) hold in every state reachable from the
empty store by public operations, provided `write(Insert(Pending..))` is not
used, output inserts use spending keys not already in `invalid` or in a
bundle, and each encumbrance uses a tx id not held by `pending` and a
globally fresh change-output key (the counterexample shows the invariants
fail without these provisos). -/
theorem c2_invariants_hold (db : InnerDatabase) (h : Reachable db) :
    StoreO1 db ∧ StoreO2 db ∧ StoreO3 db :=
  ⟨storeO1_of_inv (storeInv_reachable h), (storeInv_reachable h).disj,
    storeO3_of_inv (storeInv_reachable h)⟩

/-- C2 witness: the amended theorem applied to the concrete reachable state
obtained by inserting an unspent output (key 1) and then encumbering it under
tx id 7. -/
theorem c2_invariants_hold_witness :
    StoreO1 ((InnerDatabase.new.write
        (.Insert (.UnspentOutput 1 ⟨1, 10⟩))).1.short_term_encumber_outputs
        7 [⟨1, 10⟩] none 0).1 ∧
    StoreO2 ((InnerDatabase.new.write
        (.Insert (.UnspentOutput 1 ⟨1, 10⟩))).1.short_term_encumber_outputs
        7 [⟨1, 10⟩] none 0).1 ∧
    StoreO3 ((InnerDatabase.new.write
        (.Insert (.UnspentOutput 1 ⟨1, 10⟩))).1.short_term_encumber_outputs
        7 [⟨1, 10⟩] none 0).1 :=
  c2_invariants_hold _
    (Reachable.step
      (Reachable.step Reachable.base
        (Step.insert_unspent InnerDatabase.new ⟨1, 10⟩ (by decide) (by decide) (by decide)))
      (Step.encumber _ 7 [⟨1, 10⟩] none 0 (by decide) (fun co hc => Option.noConfusion hc)))

/-! ## Difficulty adjustment (`tsa_diff.rs`) -/

/-- `DifficultyAdjustmentError` (declared in `error.rs`; only the
strictly-increasing variant is exercised by this code). -/
inductive DifficultyAdjustmentError where
  | StrictlyIncreasing
  deriving DecidableEq, Repr

/-- The LWMA state.  Its fields are visible in `tsa_diff.rs` (the
`TimeStampAdjustment::new` constructor builds it literally); its methods live
in `lwma_diff.rs`, which is not among the provided sources and is modelled
from the spec below. -/
structure LinearWeightedMovingAverage where
  timestamps : List Nat
  accumulated_difficulties : List Nat
  block_window : Nat
  target_time : Nat
  initial_difficulty : Nat
  deriving DecidableEq, Repr

structure TimeStampAdjustment where
  lwma_diff : LinearWeightedMovingAverage
  deriving DecidableEq, Repr

/-- `TimeStampAdjustment::new` (tsa_diff.rs lines 25-34). -/
def TimeStampAdjustment.new (block_window target_time initial_difficulty : Nat) :
    TimeStampAdjustment :=
  { lwma_diff :=
    { timestamps := []
      accumulated_difficulties := []
      block_window := block_window
      target_time := target_time
      initial_difficulty := initial_difficulty } }

/-- Modelled from the spec: `LinearWeightedMovingAverage::add` lives in
`lwma_diff.rs`, which is not among the provided sources.  Spec section 4.1:
append the observation; fail with `StrictlyIncreasing` when the new
accumulated difficulty is less than or equal to the last stored one; evict
the oldest entry when the window would exceed `block_window + 1` entries.
(The in-source test `tsa_add_non_increasing_diff` pins the failure cases.) -/
def LinearWeightedMovingAverage.add (l : LinearWeightedMovingAverage)
    (timestamp accumulated_difficulty : Nat) :
    LinearWeightedMovingAverage × Except DifficultyAdjustmentError Unit :=
  match l.accumulated_difficulties.getLast? with
  | some last =>
    if accumulated_difficulty ≤ last then (l, .error .StrictlyIncreasing)
    else
      let ts := l.timestamps ++ [timestamp]
      let ad := l.accumulated_difficulties ++ [accumulated_difficulty]
      if ts.length > l.block_window + 1 then
        ({ l with timestamps := ts.tail, accumulated_difficulties := ad.tail }, .ok ())
      else
        ({ l with timestamps := ts, accumulated_difficulties := ad }, .ok ())
  | none =>
    let ts := l.timestamps ++ [timestamp]
    let ad := l.accumulated_difficulties ++ [accumulated_difficulty]
    if ts.length > l.block_window + 1 then
      ({ l with timestamps := ts.tail, accumulated_difficulties := ad.tail }, .ok ())
    else
      ({ l with timestamps := ts, accumulated_difficulties := ad }, .ok ())

/-- `TimeStampAdjustment::add` (tsa_diff.rs lines 113-127): delegates to the
LWMA window; the `trace!` log call has no semantic effect. -/
def TimeStampAdjustment.add (s : TimeStampAdjustment) (timestamp accumulated_difficulty : Nat) :
    TimeStampAdjustment × Except DifficultyAdjustmentError Unit :=
  match s.lwma_diff.add timestamp accumulated_difficulty with
  | (l, r) => ({ lwma_diff := l }, r)

/-- Ceiling division on naturals (`(a + b - 1) / b`; 0 when `b = 0`). -/
def ceilDiv (a b : Nat) : Nat := (a + b - 1) / b

/-- Modelled from the spec: `LinearWeightedMovingAverage::get_difficulty`
(`lwma_diff.rs`, not among the provided sources).  Spec section 4.1: with
fewer than 2 observations return `initial_difficulty`; else substitute 1 for
a non-increasing interval, clamp at `6 * target_time`, weight by index, and
return `ceil(diff_delta * k / S)` with `k = n * (n + 1) / 2 * target_time`,
clamped to a minimum of 1.  No theorem below depends on this value (the
spec's own §8 worked example does not match this formula, so the TSA claims
are settled on the branch structure, which is integer arithmetic in the
source, rather than on floating-point values). -/
def LinearWeightedMovingAverage.get_difficulty (l : LinearWeightedMovingAverage) : Nat :=
  if l.timestamps.length < 2 then l.initial_difficulty
  else
    let n := l.timestamps.length - 1
    let solve : Nat → Nat := fun i =>
      let prev := l.timestamps.getD (i - 1) 0
      let cur := l.timestamps.getD i 0
      let raw := if cur ≤ prev then 1 else cur - prev
      min raw (6 * l.target_time)
    let S := (List.range n).foldl (fun acc j => acc + (j + 1) * solve (j + 1)) 0
    let k := n * (n + 1) / 2 * l.target_time
    let dd := l.accumulated_difficulties.getD n 0 - l.accumulated_difficulties.getD 0 0
    max 1 (ceilDiv (dd * k) S)

/-- `2 ^ 64`, the wrap-around modulus of `u64`. -/
def U64LIMIT : Nat := 18446744073709551616

/-- `u64` wrapping of a product or sum (release-mode Rust semantics). -/
def wrap (x : Nat) : Nat := x % U64LIMIT

/-- `u64` wrapping subtraction for `a, b < 2^64`. -/
def wsub (a b : Nat) : Nat := (U64LIMIT + a - b) % U64LIMIT

/-- `EpochTime::increase`: saturating addition at `u64::MAX`. -/
def saturatingIncrease (t n : Nat) : Nat := min (t + n) (U64LIMIT - 1)

/-- `n = timestamps.len() - 1` (tsa_diff.rs line 51). -/
def tsaN (l : LinearWeightedMovingAverage) : Nat := l.timestamps.length - 1

/-- `prev_timestamp = timestamps[n - 1]` (tsa_diff.rs line 52). -/
def tsaPrevTimestamp (l : LinearWeightedMovingAverage) : Nat :=
  l.timestamps.getD (tsaN l - 1) 0

/-- `this_timestamp` (tsa_diff.rs lines 53-57): `timestamps[n]` when it is
greater than `prev_timestamp`, else `prev_timestamp.increase(1)`. -/
def tsaThisTimestamp (l : LinearWeightedMovingAverage) : Nat :=
  if l.timestamps.getD (tsaN l) 0 > tsaPrevTimestamp l then l.timestamps.getD (tsaN l) 0
  else saturatingIncrease (tsaPrevTimestamp l) 1

/-- `solve_time = min(this - prev, 6 * target_time)` (tsa_diff.rs lines 58-61). -/
def tsaSolveTime0 (l : LinearWeightedMovingAverage) : Nat :=
  min (wsub (tsaThisTimestamp l) (tsaPrevTimestamp l)) (wrap (6 * l.target_time))

/-- `asc = timestamps[n] - timestamps[0]` (tsa_diff.rs line 65), wrapping. -/
def tsaAsc0 (l : LinearWeightedMovingAverage) : Nat :=
  wsub (l.timestamps.getD (tsaN l) 0) (l.timestamps.getD 0 0)

/-- The conditional `asc` rescale of the "Xbuffer" block (tsa_diff.rs lines
66-68), with `R = 2` and the source's `(asc / n) + 1` parse. -/
def tsaAsc (l : LinearWeightedMovingAverage) : Nat :=
  let n := tsaN l
  let asc := tsaAsc0 l
  if asc / n + 1 ≤ l.target_time / 2 then wrap (asc / (n + 1) / l.target_time * asc) else asc

/-- The rescaled `solve_time` (tsa_diff.rs lines 69-72), including the
(dead, since `u64` is non-negative) clamp of negative values to 0. -/
def tsaSolveTime (l : LinearWeightedMovingAverage) : Nat :=
  let n := tsaN l
  let s := wrap (tsaSolveTime0 l * (wrap (tsaAsc l / (n + 1) * 1000) / l.target_time)) / 1000
  if s < 0 then 0 else s

/-- Whether `calculate` multiplies the LWMA base by `1/5` (the two dampen
arms, tsa_diff.rs lines 73-79).  The first arm's guard subtracts
`timestamps[n-1]` from `prev_timestamp`, which IS `timestamps[n-1]`, so that
difference is identically zero.  `R = 2`. -/
def tsaDampenTaken (l : LinearWeightedMovingAverage) : Bool :=
  (decide (wsub (tsaPrevTimestamp l) (tsaPrevTimestamp l) ≤ l.target_time / 2) &&
      decide (tsaSolveTime l < l.target_time - l.target_time / 5)) ||
    decide (tsaSolveTime l ≤ l.target_time / 5)

/-- The `exm = (exm * (2.71828 * m)) / m` loop (tsa_diff.rs lines 83-87),
iterated `solve_time / target_time / R` times.  `f64` arithmetic is
modelled by exact rationals; no theorem depends on this value. -/
def tsaExmLoop (m : ℚ) : Nat → ℚ → ℚ
  | 0, exm => exm
  | k + 1, exm => tsaExmLoop m k ((exm * ((271828 / 100000 : ℚ) * m)) / m)

/-- The TSA exponential-expansion result (tsa_diff.rs lines 82-103), with
`f64` modelled by exact rationals.  The source computes
`(solve_time - target_time) as f64` in `u64` first, hence the wrapping
subtraction.  No theorem below depends on this value; it only names which
branch the claims talk about. -/
def tsaExpansionValue (l : LinearWeightedMovingAverage) : ℚ :=
  let t := l.target_time
  let m : ℚ := 1000000
  let s := tsaSolveTime l
  let count := s / t / 2
  let exm := tsaExmLoop m count m
  let f : ℚ := ((s % (t * 2) : Nat) : ℚ)
  let exm2 := (exm *
    (m + (f *
      (m + (f *
        (m + (f * (m + (f * m) / ((4 * t * 2 : Nat) : ℚ))) /
          ((3 * t * 2 : Nat) : ℚ))) /
        ((2 * t * 2 : Nat) : ℚ))) /
      ((t * 2 : Nat) : ℚ))) / m
  let base : ℚ := (l.get_difficulty : ℚ)
  (base * ((1000 * (m * (t : ℚ) + ((wsub s t : Nat) : ℚ) * exm2)) / (m * (s : ℚ)))) / 1000

/-- `f64::ceil()` followed by `as u64` (negative values become 0). -/
def ratCeilU64 (q : ℚ) : Nat := q.ceil.toNat

/-- The value computed after the early-return (tsa_diff.rs lines 43-109):
the dampen arms multiply the LWMA base by `1/5`; the else arm is the TSA
expansion. -/
def tsaAdjustedValue (l : LinearWeightedMovingAverage) : ℚ :=
  if tsaDampenTaken l then ((l.get_difficulty : Nat) : ℚ) * (1 / 5)
  else tsaExpansionValue l

/-- `TimeStampAdjustment::calculate` (tsa_diff.rs lines 36-110). -/
def TimeStampAdjustment.calculate (s : TimeStampAdjustment) : Nat :=
  if s.lwma_diff.timestamps.length ≤ 2 then s.lwma_diff.initial_difficulty
  else ratCeilU64 (tsaAdjustedValue s.lwma_diff)

/-- `TimeStampAdjustment::get_difficulty` (tsa_diff.rs lines 129-131). -/
def TimeStampAdjustment.get_difficulty (s : TimeStampAdjustment) : Nat :=
  s.calculate

/-! ## C6: degenerate windows return the initial difficulty -/

/-- C6: for every configuration and every window of at most 2 observations,
`get_difficulty()` returns `initial_difficulty`; in particular the fresh
`TimeStampAdjustment::new(90, 120, 1)` with its empty window returns 1. -/
theorem c6_tsa_initial_on_short_window :
    (∀ s : TimeStampAdjustment, s.lwma_diff.timestamps.length ≤ 2 →
      s.get_difficulty = s.lwma_diff.initial_difficulty) ∧
    (TimeStampAdjustment.new 90 120 1).get_difficulty = 1 := by
  constructor
  · intro s h
    simp only [TimeStampAdjustment.get_difficulty, TimeStampAdjustment.calculate]
    rw [if_pos h]
  · rfl

/-- C6 witness: the empty window of `new(90, 120, 1)` yields 1, and a
two-observation window of `new(5, 60, 7)` still yields the initial 7. -/
theorem c6_tsa_initial_on_short_window_witness :
    (TimeStampAdjustment.new 90 120 1).get_difficulty = 1 ∧
    TimeStampAdjustment.get_difficulty
      ⟨{ timestamps := [60, 120], accumulated_difficulties := [100, 200],
         block_window := 5, target_time := 60, initial_difficulty := 7 }⟩ = 7 :=
  ⟨c6_tsa_initial_on_short_window.2,
    c6_tsa_initial_on_short_window.1
      ⟨{ timestamps := [60, 120], accumulated_difficulties := [100, 200],
         block_window := 5, target_time := 60, initial_difficulty := 7 }⟩ (by decide)⟩

/-! ## C8: `add` and the strictly-increasing check -/

/-- C8: `add(timestamp, accumulated_difficulty)` fails with
`StrictlyIncreasing` exactly when the stored window is non-empty and the new
accumulated difficulty is at most the last stored one; the failure leaves the
state unchanged; on success the observation is appended to both lists and,
when the window would exceed `block_window + 1` entries, the oldest entry is
evicted. -/
theorem c8_add_strictly_increasing (s : TimeStampAdjustment) (ts d : Nat) :
    ((s.add ts d).2 = .error .StrictlyIncreasing ↔
      ∃ last, s.lwma_diff.accumulated_difficulties.getLast? = some last ∧ d ≤ last) ∧
    ((s.add ts d).2 = .error .StrictlyIncreasing → (s.add ts d).1 = s) ∧
    ((s.add ts d).2 = .ok () →
      ((s.add ts d).1.lwma_diff.timestamps =
        (if (s.lwma_diff.timestamps ++ [ts]).length > s.lwma_diff.block_window + 1 then
          (s.lwma_diff.timestamps ++ [ts]).tail
        else s.lwma_diff.timestamps ++ [ts]) ∧
      (s.add ts d).1.lwma_diff.accumulated_difficulties =
        (if (s.lwma_diff.timestamps ++ [ts]).length > s.lwma_diff.block_window + 1 then
          (s.lwma_diff.accumulated_difficulties ++ [d]).tail
        else s.lwma_diff.accumulated_difficulties ++ [d]))) := by
  obtain ⟨l⟩ := s
  simp only [TimeStampAdjustment.add, LinearWeightedMovingAverage.add]
  rcases hl : l.accumulated_difficulties.getLast? with _ | last
  · by_cases hlen : l.block_window < l.timestamps.length
    · simp [hl, hlen]
    · simp [hl, hlen]
  · by_cases hle : d ≤ last
    · simp [hl, hle]
    · by_cases hlen : l.block_window < l.timestamps.length
      · simp [hl, hle, hlen]
      · simp [hl, hle, hlen]

/-- C8 witness (the in-source test `tsa_add_non_increasing_diff`): after one
successful `add(100, 100)`, both `add(100, 100)` and `add(100, 50)` fail with
`StrictlyIncreasing` and leave the window unchanged; the first `add` appended
its observation. -/
theorem c8_add_strictly_increasing_witness :
    (((TimeStampAdjustment.new 90 120 1).add 100 100).1.add 100 100).2 =
      .error .StrictlyIncreasing ∧
    (((TimeStampAdjustment.new 90 120 1).add 100 100).1.add 100 50).2 =
      .error .StrictlyIncreasing ∧
    (((TimeStampAdjustment.new 90 120 1).add 100 100).1.add 100 100).1 =
      ((TimeStampAdjustment.new 90 120 1).add 100 100).1 ∧
    ((TimeStampAdjustment.new 90 120 1).add 100 100).1.lwma_diff.timestamps = [100] := by
  have h1 := (c8_add_strictly_increasing ((TimeStampAdjustment.new 90 120 1).add 100 100).1
    100 100).1.mpr ⟨100, by decide, by decide⟩
  have h2 := (c8_add_strictly_increasing ((TimeStampAdjustment.new 90 120 1).add 100 100).1
    100 50).1.mpr ⟨100, by decide, by decide⟩
  have h3 := (c8_add_strictly_increasing ((TimeStampAdjustment.new 90 120 1).add 100 100).1
    100 100).2.1 h1
  have h4 := ((c8_add_strictly_increasing (TimeStampAdjustment.new 90 120 1) 100 100).2.2
    rfl).1
  exact ⟨h1, h2, h3, by rw [h4]; decide⟩

/-! ## C3: the dampen branch of the TSA calculation -/

/-- C3 counterexample state: window `[0, 100, 220]` with target 120.  The
rescaled solve time computes to 72, which is strictly greater than
`target_time / 5 = 24`, yet the dampen branch IS taken (via the
"unwanted modification" arm whose timestamp-difference guard is identically
zero and which fires whenever `solve_time < target_time - target_time / 5 =
96`). -/
def c3CexLwma : LinearWeightedMovingAverage :=
  { timestamps := [0, 100, 220]
    accumulated_difficulties := [100, 200, 300]
    block_window := 90
    target_time := 120
    initial_difficulty := 1 }

/-- C3 counterexample: the dampen branch is taken although the rescaled solve
time (72) exceeds `target_time / 5` (24), refuting the claimed
"dampen if and only if `solve_time ≤ target_time / 5`". -/
theorem c3_dampen_counterexample :
    tsaDampenTaken c3CexLwma = true ∧
    tsaSolveTime c3CexLwma = 72 ∧
    ¬ (tsaSolveTime c3CexLwma ≤ c3CexLwma.target_time / 5) := by
  refine ⟨by decide, by decide, by decide⟩

/-- C3 (amended): for every window of length greater than 2, `calculate`
takes the dampen branch — multiplying the LWMA base by `1/5` (computed in
`f64` in the source, modelled here over `ℚ`) before the final ceiling — if
and only if the rescaled solve time is BELOW `target_time - target_time / 5`
or at most `target_time / 5`; in every other case it returns the TSA
exponential-expansion result.  (The first disjunct comes from the
"unwanted modification" arm, whose guard `prev_timestamp - timestamps[n-1]`
is identically zero; the claim's plain `solve_time ≤ target_time / 5`
condition is therefore wrong, see the counterexample.) -/
theorem c3_dampen_branch (l : LinearWeightedMovingAverage)
    (h : 2 < l.timestamps.length) :
    (tsaDampenTaken l = true ↔
      (tsaSolveTime l < l.target_time - l.target_time / 5 ∨
        tsaSolveTime l ≤ l.target_time / 5)) ∧
    (tsaDampenTaken l = true →
      TimeStampAdjustment.calculate ⟨l⟩ =
        ratCeilU64 ((l.get_difficulty : ℚ) * (1 / 5))) ∧
    (tsaDampenTaken l = false →
      TimeStampAdjustment.calculate ⟨l⟩ = ratCeilU64 (tsaExpansionValue l)) := by
  have h0 : wsub (tsaPrevTimestamp l) (tsaPrevTimestamp l) = 0 := by
    simp [wsub, Nat.add_sub_cancel, Nat.mod_self]
  refine ⟨?_, ?_, ?_⟩
  · simp [tsaDampenTaken, h0, Bool.or_eq_true, Bool.and_eq_true, decide_eq_true_eq,
      Nat.zero_le]
  · intro hd
    simp only [TimeStampAdjustment.calculate]
    rw [if_neg (by omega), tsaAdjustedValue, if_pos hd]
  · intro hd
    simp only [TimeStampAdjustment.calculate]
    rw [if_neg (by omega), tsaAdjustedValue, if_neg (by simp [hd])]

/-- C3 witness: the amended branch characterisation applied to the concrete
counterexample window (length 3 > 2): the dampen branch is taken, matching
`72 < 96`. -/
theorem c3_dampen_branch_witness :
    tsaDampenTaken c3CexLwma = true ↔
      (tsaSolveTime c3CexLwma < c3CexLwma.target_time - c3CexLwma.target_time / 5 ∨
        tsaSolveTime c3CexLwma ≤ c3CexLwma.target_time / 5) :=
  (c3_dampen_branch c3CexLwma (by decide)).1
